import Mathlib

/-
Verification development for the LLMexporter VSCode extension.

The definitions below are a shallow embedding of the pure data and algorithm
layer of the repository:

  - src/services/FileTreeService.ts : glob pattern matching, the binary
    extension denylist, directory and file classification, file stats and
    content reads (the host file system is abstracted as an association list);
  - media/main.js                   : the tri-state selection model of the
    webview tree and the child attachment logic;
  - src/services/ExportService.ts   : the export pipeline (filtering,
    truncation, formatting, chunking, footer, progress reporting) and the
    clipboard path with its fallback chain;
  - src/validation.ts               : validateExportConfiguration over
    JavaScript style values.

JavaScript strings are modelled as Lean strings (lengths count characters
rather than UTF-16 code units; no claim depends on the difference), numbers
that the code only ever adds, divides by powers of two, or compares are
modelled as Nat or Rat (the float computations involved are exact at these
values), and asynchronous calls are modelled as pure functions over the
abstracted host state.
-/

/-! ## Basic string helpers (JavaScript and Node string utilities)

These are defined over character lists by structural recursion (or with an
explicit budget that provably suffices) so that every closed run of the
embedding evaluates inside the kernel. -/

/-- Replace every occurrence of a nonempty pattern, leftmost first and
without rescanning replaced text, like a global JavaScript regex replace of
a literal. Each step consumes at least one character of the subject, so a
budget of its length is enough. -/
def replaceAux (pat rep : List Char) : Nat → List Char → List Char
  | 0, s => s
  | _ + 1, [] => []
  | fuel + 1, c :: rest =>
    if pat ≠ [] && pat.isPrefixOf (c :: rest) then
      rep ++ replaceAux pat rep fuel ((c :: rest).drop pat.length)
    else
      c :: replaceAux pat rep fuel rest

/-- Global replacement on strings. -/
def jsReplace (s pat rep : String) : String :=
  String.mk (replaceAux pat.toList rep.toList (s.toList.length + 1) s.toList)

/-- Split a character list at every slash; always returns at least one
(possibly empty) group, like the JavaScript split. -/
def splitOnSlash : List Char → List (List Char)
  | [] => [[]]
  | c :: rest =>
    match splitOnSlash rest with
    | [] => [[c]]
    | g :: gs => if c = '/' then [] :: g :: gs else (c :: g) :: gs

/-- ASCII lower casing; the strings lower cased by the sources are
extension strings, where the JavaScript Unicode aware lower casing agrees
with the ASCII one. -/
def asciiLowerChar (c : Char) : Char :=
  if 'A' ≤ c && c ≤ 'Z' then Char.ofNat (c.toNat + 32) else c

/-- Lower casing on strings. -/
def jsToLower (s : String) : String :=
  String.mk (s.toList.map asciiLowerChar)

/-- Lexicographic code point comparison of character lists, the strict
before relation of the name ordering. -/
def charListLt : List Char → List Char → Bool
  | [], [] => false
  | [], _ :: _ => true
  | _ :: _, [] => false
  | a :: as, b :: bs => if a = b then charListLt as bs else decide (a < b)

/-- Node path.basename: the last slash separated component of a path.
Trailing separators are not handled; all call sites pass file paths. -/
def jsBasename (p : String) : String :=
  String.mk ((splitOnSlash p.toList).getLastD [])

/-- Node path.extname: the suffix of the basename starting at its last dot,
empty when the basename has no dot or only a leading dot. -/
def jsExtname (p : String) : String :=
  let b := (jsBasename p).toList
  let dotIdxs := (List.range b.length).filter (fun i => b.get? i = some '.')
  match dotIdxs.getLast? with
  | some i => if i = 0 then "" else String.mk (b.drop i)
  | none => ""

/-- Concatenation of a list of strings, the join with the empty
separator. -/
def catList : List String → String
  | [] => ""
  | x :: xs => x ++ catList xs

/-- JavaScript String.prototype.repeat for a single character,
used for the '=' separator rules of the plain text format. -/
def repeatChar (c : Char) (n : Nat) : String :=
  String.mk (List.replicate n c)

/-! ## Pattern Matcher (FileTreeService.matchesPattern)

The source converts a glob pattern to a regular expression by four sequential
global string replacements and tests the whole path against it anchored:

    pattern.replace(dot, escaped dot).replace(doublestar, dot star)
           .replace(star, nonsep class star).replace(question, nonsep class)
    new RegExp(anchored regexPattern).test(filePath)

Note that the third replacement also rewrites the star that the second
replacement introduced, so a doublestar ends up as a dot followed by a
starred non separator class. The replacement chain is modelled with
String.replace (all occurrences, leftmost first, like a global regex replace
of a literal), and the generated regular expression is interpreted by a
small matcher covering exactly the constructs the chain can produce from
glob syntax: literals, escaped dot, the any character dot, the non separator
class, and the postfix star. Patterns whose generated regex falls outside
this fragment are mapped to none. -/

/-- The glob to regex text transformation of FileTreeService.matchesPattern. -/
def globToRegexString (pat : String) : String :=
  jsReplace (jsReplace (jsReplace (jsReplace pat "." "\\.") "**" ".*") "*" "[^/]*") "?" "[^/]"

/-- Atoms of the regex fragment generated by globToRegexString. -/
inductive RAtom where
  | lit (c : Char)
  | anyChar
  | nonSep
deriving Repr, DecidableEq

/-- A token is an atom, possibly starred. -/
inductive RTok where
  | once (a : RAtom)
  | star (a : RAtom)
deriving Repr, DecidableEq

/-- Characters that would carry regex meaning outside the modelled fragment. -/
def regexMeta : List Char :=
  ['[', ']', '(', ')', '{', '}', '+', '?', '|', '^', '$', '\\', '*']

/-- Parse the regex fragment generated by globToRegexString; an atom followed
by a star character becomes a starred token. -/
def parseRegexFragment : List Char → Option (List RTok)
  | [] => some []
  | '\\' :: '.' :: '*' :: rest => (parseRegexFragment rest).map (RTok.star (RAtom.lit '.') :: ·)
  | '\\' :: '.' :: rest => (parseRegexFragment rest).map (RTok.once (RAtom.lit '.') :: ·)
  | '[' :: '^' :: '/' :: ']' :: '*' :: rest => (parseRegexFragment rest).map (RTok.star RAtom.nonSep :: ·)
  | '[' :: '^' :: '/' :: ']' :: rest => (parseRegexFragment rest).map (RTok.once RAtom.nonSep :: ·)
  | '.' :: '*' :: rest => (parseRegexFragment rest).map (RTok.star RAtom.anyChar :: ·)
  | '.' :: rest => (parseRegexFragment rest).map (RTok.once RAtom.anyChar :: ·)
  | c :: '*' :: rest =>
    if c ∈ regexMeta then none
    else (parseRegexFragment rest).map (RTok.star (RAtom.lit c) :: ·)
  | c :: rest =>
    if c ∈ regexMeta then none
    else (parseRegexFragment rest).map (RTok.once (RAtom.lit c) :: ·)

/-- One atom against one character. -/
def amatch : RAtom → Char → Bool
  | RAtom.lit c, d => c = d
  | RAtom.anyChar, _ => true
  | RAtom.nonSep, d => d ≠ '/'

/-- Anchored matching of a token list against a character list with an
explicit recursion budget; every step shortens the token list or the
character list, so a budget of their combined length is enough. -/
def rmatchF : Nat → List RTok → List Char → Bool
  | 0, _, _ => false
  | _ + 1, [], [] => true
  | _ + 1, [], _ :: _ => false
  | _ + 1, RTok.once _ :: _, [] => false
  | fuel + 1, RTok.once a :: ts, c :: cs => amatch a c && rmatchF fuel ts cs
  | fuel + 1, RTok.star _ :: ts, [] => rmatchF fuel ts []
  | fuel + 1, RTok.star a :: ts, c :: cs =>
    rmatchF fuel ts (c :: cs) || (amatch a c && rmatchF fuel (RTok.star a :: ts) cs)

/-- Anchored matching of a token list against a character list
(standard regular expression language membership). -/
def rmatch (ts : List RTok) (s : List Char) : Bool :=
  rmatchF (ts.length + s.length + 1) ts s

/-- FileTreeService.matchesPattern: build the regex from the pattern and test
the full path against it, anchored and case sensitive. none when the
generated regex falls outside the modelled fragment (impossible for patterns
made of plain glob syntax). -/
def matchesPattern (filePath pat : String) : Option Bool :=
  (parseRegexFragment (globToRegexString pat).toList).map (fun ts => rmatch ts filePath.toList)

/-- Glob semantics as the claim states them: a doublestar matches any
sequence of characters including the empty sequence and separators, a single
star any sequence of non separator characters, a question mark exactly one
non separator character, other characters literally; anchored and case
sensitive. This definition follows the words of the claim (not the source)
and is compared against matchesPattern, the definition from the source. -/
def globSpecMatchF : Nat → List Char → List Char → Bool
  | 0, _, _ => false
  | fuel + 1, '*' :: '*' :: ps, s =>
    globSpecMatchF fuel ps s ||
      (match s with
       | [] => false
       | _ :: cs => globSpecMatchF fuel ('*' :: '*' :: ps) cs)
  | fuel + 1, '*' :: ps, s =>
    globSpecMatchF fuel ps s ||
      (match s with
       | [] => false
       | c :: cs => c ≠ '/' && globSpecMatchF fuel ('*' :: ps) cs)
  | fuel + 1, '?' :: ps, c :: cs => c ≠ '/' && globSpecMatchF fuel ps cs
  | _ + 1, '?' :: _, [] => false
  | fuel + 1, p :: ps, c :: cs => p = c && globSpecMatchF fuel ps cs
  | _ + 1, _ :: _, [] => false
  | _ + 1, [], [] => true
  | _ + 1, [], _ :: _ => false

/-- The matcher with a budget of the combined lengths, which every step
shortens. -/
def globSpecMatch (ps s : List Char) : Bool :=
  globSpecMatchF (ps.length + s.length + 1) ps s

/-- Claim side full path matching of a pattern (String wrapper). -/
def globSpecMatches (filePath pat : String) : Bool :=
  globSpecMatch pat.toList filePath.toList

/-! ## Content Classifier and host file system (FileTreeService)

The VSCode host (vscode.workspace.fs plus the workspace folder resolution
and path validation plumbing in FileTreeService) is abstracted as an
association list from relative paths to entries; a missing entry models a
path that fails to stat, and an entry with no content models a file whose
read fails with a host error (the spec treats both as external collaborator
failures). -/

/-- FileTreeService.BINARY_EXTENSIONS. -/
def BINARY_EXTENSIONS : List String :=
  [".exe", ".dll", ".so", ".dylib", ".bin", ".obj", ".o", ".a", ".lib",
   ".jpg", ".jpeg", ".png", ".gif", ".bmp", ".ico", ".svg", ".webp",
   ".mp3", ".mp4", ".avi", ".mov", ".wmv", ".flv", ".webm",
   ".pdf", ".doc", ".docx", ".xls", ".xlsx", ".ppt", ".pptx",
   ".zip", ".rar", ".7z", ".tar", ".gz", ".bz2"]

/-- One entry of the abstracted host file system. -/
structure FSEntry where
  isDir : Bool
  size : Nat
  content : Option String
deriving Repr, DecidableEq

/-- The abstracted host file system: relative path to entry. -/
abbrev FileSystem := List (String × FSEntry)

/-- Look up a path in the host file system. -/
def fsLookup (fs : FileSystem) (p : String) : Option FSEntry :=
  (fs.find? (fun e => e.1 = p)).map (·.2)

/-- FileTreeService.isBinaryFile: exact match of the lower cased extension
against the denylist. -/
def isBinaryFile (p : String) : Bool :=
  BINARY_EXTENSIONS.contains (jsToLower (jsExtname p))

/-- FileTreeService.isDirectory: stat the path; any failure (missing path,
invalid path) yields false via the catch all in the source. -/
def isDirectory (fs : FileSystem) (p : String) : Bool :=
  ((fsLookup fs p).map (·.isDir)).getD false

/-- FileTreeService.getFileStats: size of the entry, error when the stat
fails (the host error message is abstracted). -/
def getFileStats (fs : FileSystem) (p : String) : Except String Nat :=
  match fsLookup fs p with
  | some e => Except.ok e.size
  | none => Except.error ("Failed to get stats: " ++ p)

/-- FileTreeService.getFileContent: decoded text of the entry, error when
the read fails (missing entry or an entry with no readable content). -/
def getFileContent (fs : FileSystem) (p : String) : Except String String :=
  match fsLookup fs p with
  | some e =>
    match e.content with
    | some c => Except.ok c
    | none => Except.error ("Failed to read: " ++ p)
  | none => Except.error ("Failed to read: " ++ p)

/-! ## Webview tree model (media/main.js)

FileTreeNode as the webview holds it: path, type, the two selection flags,
and the children list. In the data produced by FileTreeService every
directory carries a children array (empty until loaded) and no file has
one, so the JavaScript truthiness test on node.children coincides with the
node being a directory; the expanded flag and the size and extension fields
are never read by the selection logic and are not represented. The forest
and node types are a mutual inductive so that all tree recursions are
structural. -/

/-- Node kind. -/
inductive NKind where
  | file
  | directory
deriving Repr, DecidableEq

/-- The fields of one tree node read by the selection logic. -/
structure NodeData where
  path : String
  kind : NKind
  selected : Bool
  indeterminate : Bool
deriving Repr, DecidableEq

mutual

/-- One webview tree node. -/
inductive FNode where
  | mk (data : NodeData) (children : FForest)
deriving Repr

/-- An ordered list of sibling nodes. -/
inductive FForest where
  | nil
  | cons (hd : FNode) (tl : FForest)
deriving Repr

end

/-- Field accessor for the node data. -/
def FNode.data : FNode → NodeData
  | .mk d _ => d

/-- Field accessor for the children list. -/
def FNode.children : FNode → FForest
  | .mk _ cs => cs

/-- children.every(child => child.selected) -/
def allSel : FForest → Bool
  | .nil => true
  | .cons h t => h.data.selected && allSel t

/-- children.every(child => !child.selected && !child.indeterminate) -/
def noneSel : FForest → Bool
  | .nil => true
  | .cons h t => (!h.data.selected && !h.data.indeterminate) && noneSel t

/-- children.some(child => child.selected || child.indeterminate) -/
def someSel : FForest → Bool
  | .nil => false
  | .cons h t => (h.data.selected || h.data.indeterminate) || someSel t

/-- The body of updateParentSelection applied to one node given its children:
all selected makes the node selected, none selected or indeterminate clears
it, any selected or indeterminate makes it indeterminate; the final branch of
the source (both flags cleared) is unreachable but kept. An empty children
list takes the first branch, as the JavaScript every on an empty array is
true; updateParentSelection is only ever invoked on nodes with at least one
child. -/
def recompute (d : NodeData) (cs : FForest) : NodeData :=
  if allSel cs then { d with selected := true, indeterminate := false }
  else if noneSel cs then { d with selected := false, indeterminate := false }
  else if someSel cs then { d with selected := false, indeterminate := true }
  else { d with selected := false, indeterminate := false }

mutual

/-- The flag assignment of handleTreeNodeChange on the toggled node and of
updateChildSelection on each descendant: set selected, clear indeterminate,
and recurse into the children when the node is a directory. -/
def forceN (b : Bool) : FNode → FNode
  | .mk d cs =>
    .mk { d with selected := b, indeterminate := false }
      (if d.kind = NKind.directory then forceF b cs else cs)

/-- updateChildSelection over a children list. -/
def forceF (b : Bool) : FForest → FForest
  | .nil => .nil
  | .cons h t => .cons (forceN b h) (forceF b t)

end

mutual

/-- One setSelected toggle located structurally: when the node is the target
(paths are unique across the tree, the data model invariant, so the depth
first first match of findNodeByPath is the structural occurrence) it is
forced like handleTreeNodeChange does; otherwise the toggle is pushed into
the children and, when it lands there, this node is recomputed from its
updated children exactly as the updateParentSelection walk does on the way
from the toggled node back to the root. none when the path is absent, in
which case handleTreeNodeChange returns without touching the tree. -/
def togN (p : String) (b : Bool) : FNode → Option FNode
  | .mk d cs =>
    if d.path = p then some (forceN b (.mk d cs))
    else
      match togF p b cs with
      | some cs2 => some (.mk (recompute d cs2) cs2)
      | none => none

/-- The toggle over a sibling list. -/
def togF (p : String) (b : Bool) : FForest → Option FForest
  | .nil => none
  | .cons h t =>
    match togN p b h with
    | some h2 => some (.cons h2 t)
    | none =>
      match togF p b t with
      | some t2 => some (.cons h t2)
      | none => none

end

/-- handleTreeNodeChange as a whole: apply the toggle, or leave the tree
unchanged when the path is not found. The root list has no parent, so the
updateParentSelection walk stops there. -/
def setSelected (f : FForest) (p : String) (b : Bool) : FForest :=
  (togF p b f).getD f

/-- A sequence of user selection toggles. -/
def applyToggles (f : FForest) : List (String × Bool) → FForest
  | [] => f
  | (p, b) :: rest => applyToggles (setSelected f p b) rest

/-- The aggregate rule of the claim for one directory and its loaded
children: selected iff all children selected, indeterminate iff some child
selected or indeterminate but not all selected. -/
def aggOk (d : NodeData) (cs : FForest) : Bool :=
  (d.selected == allSel cs) && (d.indeterminate == (someSel cs && !allSel cs))

/-- The aggregate rule demanded at one node: only directories with a
nonempty loaded children list are constrained. -/
def nodeAgg (d : NodeData) (cs : FForest) : Bool :=
  match d.kind, cs with
  | NKind.directory, FForest.cons _ _ => aggOk d cs
  | _, _ => true

mutual

/-- The tree invariant: every directory with a nonempty loaded children list
satisfies the aggregate rule. -/
def invN : FNode → Bool
  | .mk d cs => nodeAgg d cs && invF cs

/-- The invariant over a sibling list. -/
def invF : FForest → Bool
  | .nil => true
  | .cons h t => invN h && invF t

end

mutual

/-- All selection flags cleared, the state in which FileTreeService builds
every node. -/
def allClearN : FNode → Bool
  | .mk d cs => (!d.selected && !d.indeterminate) && allClearF cs

/-- All flags cleared over a sibling list. -/
def allClearF : FForest → Bool
  | .nil => true
  | .cons h t => allClearN h && allClearF t

end

/-! ## Child attachment (media/main.js updateNodeChildren)

handleDirectoryChildrenResponse calls updateNodeChildren(workspaceTree,
path, children). The source scans the forest depth first; at every scanned
node that is not the target and has a (truthy) children field it overwrites
the selected flag of every node of the freshly loaded children argument
with the scanned node selected flag, calls updateParentSelection on the
scanned node (which recomputes the flags of its proper ancestors bottom
up), and recurses; at the target it installs the children argument as the
node children and stops. The embedding replays exactly this: the depth
first visit order is computed as a list of child index addresses (flag
mutations never change paths, kinds or structure, so the order is static),
and the loop threads the whole forest and the pending children list through
each visited address. The global selectedPaths set bookkeeping of the
source is not represented (no claim reads it), nor is the expanded flag. -/

/-- Index access in a sibling list. -/
def FForest.get? : FForest → Nat → Option FNode
  | .nil, _ => none
  | .cons h _, 0 => some h
  | .cons _ t, n + 1 => FForest.get? t n

/-- Apply a function to the node at an index of a sibling list. -/
def FForest.modifyIdx : FForest → Nat → (FNode → FNode) → FForest
  | .nil, _, _ => .nil
  | .cons h t, 0, g => .cons (g h) t
  | .cons h t, n + 1, g => .cons h (FForest.modifyIdx t n g)

/-- The node at an address inside a node (empty address is the node). -/
def nodeAtN : FNode → List Nat → Option FNode
  | n, [] => some n
  | .mk _ cs, i :: rest => (FForest.get? cs i).bind (fun c => nodeAtN c rest)

/-- The node at an address inside the forest of roots. -/
def nodeAtF (f : FForest) : List Nat → Option FNode
  | [] => none
  | i :: rest => (FForest.get? f i).bind (fun c => nodeAtN c rest)

/-- Apply a function at an address inside a node. -/
def modifyAtN : FNode → List Nat → (FNode → FNode) → FNode
  | n, [], g => g n
  | .mk d cs, i :: rest, g => .mk d (FForest.modifyIdx cs i (fun c => modifyAtN c rest g))

/-- Apply a function at an address inside the forest of roots. -/
def modifyAtF (f : FForest) : List Nat → (FNode → FNode) → FForest
  | [], _ => f
  | i :: rest, g => FForest.modifyIdx f i (fun c => modifyAtN c rest g)

/-- updateParentSelection(node) for the node at the given address: every
proper ancestor is recomputed from its (already updated) children, deepest
ancestor first, which the bottom up pass below performs in one sweep; the
node itself is not recomputed and the walk stops at the roots, which have
no parent. -/
def upsN : FNode → List Nat → FNode
  | n, [] => n
  | .mk d cs, i :: rest =>
    let cs2 := FForest.modifyIdx cs i (fun c => upsN c rest)
    .mk (recompute d cs2) cs2

/-- updateParentSelection from the root list. -/
def upsF (f : FForest) : List Nat → FForest
  | [] => f
  | i :: rest => FForest.modifyIdx f i (fun c => upsN c rest)

mutual

/-- Depth first preorder of node addresses; the scan of the source descends
into a node only when its children field is truthy, which in the webview
data means the node is a directory. -/
def preN (a : List Nat) : FNode → List (List Nat)
  | .mk d cs => a :: (if d.kind = NKind.directory then preF a 0 cs else [])

/-- Preorder over a sibling list starting at child index i. -/
def preF (a : List Nat) (i : Nat) : FForest → List (List Nat)
  | .nil => []
  | .cons h t => preN (a ++ [i]) h ++ preF a (i + 1) t

end

/-- Overwrite the selected flag of every pending child (the forEach of the
source touches only the top level selected flags of the loaded children,
not their indeterminate flags nor their own subtrees). -/
def pendSet (b : Bool) (l : List FNode) : List FNode :=
  l.map (fun n =>
    match n with
    | .mk d cs => .mk { d with selected := b } cs)

/-- Install the pending children at the target node. -/
def attachPend (pend : List FNode) : FNode → FNode
  | .mk d _ => .mk d (pend.foldr (fun n acc => FForest.cons n acc) FForest.nil)

/-- The scan loop of updateNodeChildren over the static preorder: stop and
attach at the target, replay the pending flag overwrite and the
updateParentSelection call at every other scanned directory, skip scanned
files (their children field is undefined, hence falsy). -/
def uncLoop (target : String) : List (List Nat) → FForest → List FNode → FForest × List FNode × Bool
  | [], f, pend => (f, pend, false)
  | a :: rest, f, pend =>
    match nodeAtF f a with
    | none => (f, pend, false)
    | some n =>
      if n.data.path = target then (modifyAtF f a (attachPend pend), pend, true)
      else if n.data.kind = NKind.directory then
        uncLoop target rest (upsF f a) (pendSet n.data.selected pend)
      else uncLoop target rest f pend

/-- updateNodeChildren(workspaceTree, targetPath, children): returns the
forest after the call, the final state of the loaded children argument, and
the found flag the source returns. -/
def updateNodeChildren (f : FForest) (target : String) (pend : List FNode) :
    FForest × List FNode × Bool :=
  uncLoop target (preF [] 0 f) f pend

/-! ## Export Pipeline (src/services/ExportService.ts)

The pipeline is pure apart from host reads, which go through the abstracted
file system, and the wall clock, which is passed in as the timestamp
string. Progress callbacks are modelled by returning the list of reported
(value, message) events in order; progress values are rationals (the float
arithmetic the source performs at the values that actually occur: the per
file interpolation and the 0.05 scaling, is exact, see the comments at the
definitions). The fixed batch size of ten files only groups loop iterations
around a garbage collection hint and changes neither the processing order,
the produced fragments, nor the reported events, so the loop is modelled as
one pass in eligible file order with the running overall index. -/

/-- Export format enum. -/
inductive Fmt where
  | txt
  | md
deriving Repr, DecidableEq

/-- Output method enum. -/
inductive OutMethod where
  | file
  | clipboard
deriving Repr, DecidableEq

/-- The validated export configuration as the pipeline consumes it. -/
structure ExportConfiguration where
  format : Fmt
  outputMethod : OutMethod
  includeDirectoryStructure : Bool
  maxFileSize : Nat
  excludePatterns : List String
  includePatterns : List String
  truncateThreshold : Nat
deriving Repr, DecidableEq

/-- ExportService.filterValidFiles: keep the selected paths that are not
directories and not binary by extension, in input order. The try catch of
the source is unreachable (isDirectory swallows its own errors and
isBinaryFile is pure), and no pattern is consulted. -/
def filterValidFiles (fs : FileSystem) (selectedPaths : List String) : List String :=
  selectedPaths.filter (fun p => !isDirectory fs p && !isBinaryFile p)

/-- The truncation marker appended by ExportService.processFile. -/
def truncationMarker : String := "\n\n[... Content truncated due to size limit ...]"

/-- ExportService.getLanguageFromExtension. -/
def languageMap : List (String × String) :=
  [(".js", "javascript"), (".ts", "typescript"), (".jsx", "jsx"), (".tsx", "tsx"),
   (".py", "python"), (".java", "java"), (".c", "c"), (".cpp", "cpp"),
   (".cs", "csharp"), (".php", "php"), (".rb", "ruby"), (".go", "go"),
   (".rs", "rust"), (".swift", "swift"), (".kt", "kotlin"), (".scala", "scala"),
   (".html", "html"), (".css", "css"), (".scss", "scss"), (".sass", "sass"),
   (".less", "less"), (".xml", "xml"), (".json", "json"), (".yaml", "yaml"),
   (".yml", "yaml"), (".toml", "toml"), (".ini", "ini"), (".cfg", "ini"),
   (".conf", "ini"), (".sh", "bash"), (".bash", "bash"), (".zsh", "zsh"),
   (".fish", "fish"), (".ps1", "powershell"), (".sql", "sql"), (".md", "markdown"),
   (".dockerfile", "dockerfile"), (".gitignore", "gitignore"), (".env", "bash")]

/-- Language tag for the fenced code block, empty when unknown. -/
def getLanguageFromExtension (ext : String) : String :=
  ((languageMap.find? (fun e => e.1 = jsToLower ext)).map (·.2)).getD ""

/-- ExportService.formatFileContent: per file header and format specific
body framing. -/
def formatFileContent (filePath content : String) (format : Fmt) : String :=
  match format with
  | Fmt.md =>
    "## File: " ++ filePath ++ "\n\n```" ++ getLanguageFromExtension (jsExtname filePath) ++
      "\n" ++ content ++ "\n```\n\n"
  | Fmt.txt =>
    let sep := repeatChar '=' (min (filePath.length + 10) 80)
    sep ++ "\nFile: " ++ filePath ++ "\n" ++ sep ++ "\n\n" ++ content ++ "\n\n"

/-- ExportService.formatError: the inline error block emitted for a file
whose processing failed. -/
def formatError (filePath errorMessage : String) (format : Fmt) : String :=
  match format with
  | Fmt.md => "## File: " ++ filePath ++ "\n\n**Error**: " ++ errorMessage ++ "\n\n"
  | Fmt.txt =>
    let sep := repeatChar '=' (min (filePath.length + 10) 80)
    sep ++ "\nFile: " ++ filePath ++ "\n" ++ sep ++ "\n\nError: " ++ errorMessage ++ "\n\n"

/-- The file body after the size check of ExportService.processFile: when
the on disk size exceeds maxFileSize the decoded content is cut at
Math.floor(maxFileSize times 0.8), which equals maxFileSize times four
divided by five rounded down at every realistic size (the float product is
within one part in ten to the fifteenth of the exact value), and the
truncation marker is appended. -/
def processedBody (fs : FileSystem) (cfg : ExportConfiguration) (p : String) :
    Except String (String × Bool) :=
  match getFileStats fs p with
  | Except.error e => Except.error e
  | Except.ok size =>
    match getFileContent fs p with
    | Except.error e => Except.error e
    | Except.ok content =>
      if cfg.maxFileSize < size then
        Except.ok (content.take (cfg.maxFileSize * 4 / 5) ++ truncationMarker, true)
      else
        Except.ok (content, false)

/-- The value ExportService.processFile resolves with. -/
structure ProcessedFile where
  content : String
  size : Nat
  truncated : Bool
deriving Repr, DecidableEq

/-- ExportService.processFile: stats, read, truncation check, formatting.
Any host failure rejects and is caught per file by the export loop. -/
def processFile (fs : FileSystem) (cfg : ExportConfiguration) (p : String) :
    Except String ProcessedFile :=
  match getFileStats fs p with
  | Except.error e => Except.error e
  | Except.ok size =>
    match processedBody fs cfg p with
    | Except.error e => Except.error e
    | Except.ok (body, tr) =>
      Except.ok { content := formatFileContent p body cfg.format, size := size, truncated := tr }

/-- ExportService.generateHeader with the generation timestamp. -/
def generateHeader (cfg : ExportConfiguration) (now : String) : String :=
  match cfg.format with
  | Fmt.md => "# LLM Context Export\n\nGenerated on: " ++ now ++ "\n\n---\n\n"
  | Fmt.txt => "LLM Context Export\nGenerated on: " ++ now ++ "\n\n" ++ repeatChar '=' 50 ++ "\n\n"

/-- ExportService.generateFooter; Math.round(totalSize divided by 1024) is
exact in floats (division by a power of two) and equals adding 512 then
dividing by 1024 rounding down. -/
def generateFooter (cfg : ExportConfiguration) (totalFiles totalSize : Nat)
    (truncatedFiles : List String) : String :=
  let sizeInKB := (totalSize + 512) / 1024
  match cfg.format with
  | Fmt.md =>
    "\n---\n\n## Export Summary\n\n" ++
    "- **Total Files**: " ++ toString totalFiles ++ "\n" ++
    "- **Total Size**: " ++ toString sizeInKB ++ " KB\n" ++
    (if truncatedFiles.length > 0 then
      "- **Truncated Files**: " ++ toString truncatedFiles.length ++ "\n\n" ++
      "### Truncated Files:\n" ++
      catList (truncatedFiles.map (fun f => "- " ++ f ++ "\n"))
     else "")
  | Fmt.txt =>
    "\n" ++ repeatChar '=' 50 ++ "\n\n" ++
    "Export Summary:\n" ++
    "- Total Files: " ++ toString totalFiles ++ "\n" ++
    "- Total Size: " ++ toString sizeInKB ++ " KB\n" ++
    (if truncatedFiles.length > 0 then
      "- Truncated Files: " ++ toString truncatedFiles.length ++ "\n\n" ++
      "Truncated Files:\n" ++
      catList (truncatedFiles.map (fun f => "  - " ++ f ++ "\n"))
     else "")

/-! ### Directory structure rendering (buildPathTree and renderTree) -/

/-- The intermediate tree ExportService.buildPathTree builds: a name keyed
map of children in insertion order plus a file flag. -/
inductive PTree where
  | mk (name : String) (children : List PTree) (isFile : Bool)

/-- Name accessor. -/
def PTree.name : PTree → String
  | .mk nm _ _ => nm

/-- Children accessor. -/
def PTree.children : PTree → List PTree
  | .mk _ cs _ => cs

/-- File flag accessor. -/
def PTree.isFile : PTree → Bool
  | .mk _ _ b => b

/-- One path walked into the tree: at each level the component node is
created when absent (with the file flag computed only for the last
component, from isDirectory on the full path) and then descended into;
an existing node keeps its flag. -/
def insertParts (fs : FileSystem) (fullPath : String) : List String → PTree → PTree
  | [], t => t
  | part :: rest, PTree.mk nm cs fl =>
    let isFileHere := if rest.isEmpty then !isDirectory fs fullPath else false
    if cs.any (fun c => c.name = part) then
      PTree.mk nm (cs.map (fun c => if c.name = part then insertParts fs fullPath rest c else c)) fl
    else
      PTree.mk nm (cs ++ [insertParts fs fullPath rest (PTree.mk part [] isFileHere)]) fl

/-- ExportService.buildPathTree over the valid file list; the sentinel root
path is skipped and each path is split on slashes dropping empty parts. -/
def buildPathTree (fs : FileSystem) (filePaths : List String) : PTree :=
  filePaths.foldl
    (fun t p =>
      if p = "." then t
      else insertParts fs p (((splitOnSlash p.toList).map String.mk).filter (fun s => s.length > 0)) t)
    (PTree.mk "" [] false)

/-- The sort comparator of renderTree, directories before files and then by
name; localeCompare is modelled as code point order, which only affects the
ordering inside the rendered structure block. This is the strict before
relation of the comparator. -/
def childBefore (a b : PTree) : Bool :=
  if a.isFile = b.isFile then charListLt a.name.toList b.name.toList
  else !a.isFile

/-- Stable insertion used to model the stable JavaScript Array sort. -/
def insertStable (x : PTree) : List PTree → List PTree
  | [] => [x]
  | y :: ys => if childBefore x y then x :: y :: ys else y :: insertStable x ys

/-- Stable sort by the renderTree comparator. -/
def sortChildrenJS (l : List PTree) : List PTree :=
  l.foldl (fun acc x => insertStable x acc) []

/-- One row per sorted child: connector for the last versus inner child,
folder icon for directories, then the recursive block (the rec argument)
for nonempty children with the extended indentation. -/
def renderRow (rec : PTree → String → String) : List PTree → String → String
  | [], _ => ""
  | [c], pre =>
    pre ++ "└── " ++ (if c.isFile then "" else "📁 ") ++ c.name ++ "\n" ++
      (if c.children.length > 0 then rec c (pre ++ "    ") else "")
  | c :: rest, pre =>
    pre ++ "├── " ++ (if c.isFile then "" else "📁 ") ++ c.name ++ "\n" ++
      (if c.children.length > 0 then rec c (pre ++ "│   ") else "") ++
      renderRow rec rest pre

/-- renderTree of ExportService with an explicit recursion depth budget;
the budget strictly decreases along the child relation while the node count
strictly dominates the tree depth, so the zero case is never reached when
the function is applied through renderTreeTop. -/
def renderAux : Nat → PTree → String → String
  | 0, _, _ => ""
  | fuel + 1, t, pre => renderRow (renderAux fuel) (sortChildrenJS t.children) pre

mutual

/-- Number of nodes of a path tree, a bound on its depth. -/
def PTree.size : PTree → Nat
  | .mk _ cs _ => 1 + PTree.sizeList cs

/-- Total node count of a list of path trees. -/
def PTree.sizeList : List PTree → Nat
  | [] => 0
  | c :: rest => PTree.size c + PTree.sizeList rest

end

/-- renderTree applied at the root with the empty indentation. -/
def renderTreeTop (t : PTree) : String :=
  renderAux t.size t ""

/-- ExportService.generateDirectoryStructure. -/
def generateDirectoryStructure (fs : FileSystem) (selectedPaths : List String) : String :=
  let valid := filterValidFiles fs selectedPaths
  let tree := buildPathTree fs valid
  "## Directory Structure\n\n```\n" ++ renderTreeTop tree ++ "\n```\n\n"

/-! ### Chunk accumulation, the export loop, and generateExport -/

/-- The fixed output chunk bound of generateExport. -/
def CHUNK_SIZE_LIMIT : Nat := 1048576

/-- The chunk accumulator: the list of output chunks and the size counter of
the current chunk. -/
structure ChunkSt where
  chunks : List String
  cur : Nat
deriving Repr, DecidableEq

/-- In place concatenation onto the last chunk. The empty list case keeps
the fragment so that joining stays faithful; it is unreachable in runs
because the header is pushed before anything else (the main loop of the
source even guards the case explicitly, the other sites index the last
element directly). -/
def appendLast : List String → String → List String
  | [], s => [s]
  | [x], s => [x ++ s]
  | x :: xs, s => x :: appendLast xs s

/-- The chunking step used at the structure, per file, error and footer
sites: start a fresh chunk when the fragment would overflow the bound,
otherwise extend the current chunk. The stale size counter the source
leaves after pushing the footer is irrelevant, nothing reads it. -/
def pushOrAppend (st : ChunkSt) (s : String) : ChunkSt :=
  if CHUNK_SIZE_LIMIT < st.cur + s.length then
    { chunks := st.chunks ++ [s], cur := s.length }
  else
    { chunks := appendLast st.chunks s, cur := st.cur + s.length }

/-- The concatenation of all chunks, the final content. -/
def joinChunks (st : ChunkSt) : String :=
  catList st.chunks

/-- The state coming out of the per file loop of generateExport. -/
structure LoopOut where
  st : ChunkSt
  totalFiles : Nat
  totalSize : Nat
  truncatedFiles : List String
  trace : List (ℚ × String)
deriving Repr, DecidableEq

/-- The per file loop of generateExport over the valid files, carrying the
overall index i of the file among the n valid files: report progress at
twenty plus i over n times seventy (exact in floats for the integer inputs
involved), process the file, on success push it into the chunk state and
the running counters recording a truncated path once, on failure push the
inline error block and leave every counter untouched. -/
def exportLoop (fs : FileSystem) (cfg : ExportConfiguration) (n : Nat) :
    List String → Nat → ChunkSt → Nat → Nat → List String → LoopOut
  | [], _, st, tf, ts, tr => ⟨st, tf, ts, tr, []⟩
  | p :: rest, i, st, tf, ts, tr =>
    let ev : ℚ × String :=
      (20 + ((i : ℚ) / (n : ℚ)) * 70, "Processing " ++ jsBasename p ++ "...")
    match processFile fs cfg p with
    | Except.ok r =>
      let tr2 := if r.truncated then tr ++ [p] else tr
      let out := exportLoop fs cfg n rest (i + 1) (pushOrAppend st r.content) (tf + 1) (ts + r.size) tr2
      { out with trace := ev :: out.trace }
    | Except.error msg =>
      let out := exportLoop fs cfg n rest (i + 1) (pushOrAppend st (formatError p msg cfg.format)) tf ts tr
      { out with trace := ev :: out.trace }

/-- ExportResult.metadata. -/
structure ExportMetadata where
  totalFiles : Nat
  totalSize : Nat
  generatedAt : String
  truncatedFiles : List String
deriving Repr, DecidableEq

/-- ExportResult. -/
structure ExportResult where
  content : String
  metadata : ExportMetadata
deriving Repr, DecidableEq

/-- ExportService.generateExport: header chunk, optional directory
structure (reported at ten), the per file loop, the footer, finalization at
ninety five and completion at one hundred. Returns the result together with
the ordered progress events. -/
def generateExport (fs : FileSystem) (selectedPaths : List String)
    (cfg : ExportConfiguration) (now : String) : ExportResult × List (ℚ × String) :=
  let header := generateHeader cfg now
  let st0 : ChunkSt := ⟨[header], header.length⟩
  let stepStructure :=
    if cfg.includeDirectoryStructure then
      (pushOrAppend st0 (generateDirectoryStructure fs selectedPaths),
       [((10 : ℚ), "Generating directory structure...")])
    else (st0, ([] : List (ℚ × String)))
  let st1 := stepStructure.1
  let tr1 := stepStructure.2
  let valid := filterValidFiles fs selectedPaths
  let out := exportLoop fs cfg valid.length valid 0 st1 0 0 []
  let footer := generateFooter cfg out.totalFiles out.totalSize out.truncatedFiles
  let st2 := pushOrAppend out.st footer
  (⟨joinChunks st2, ⟨out.totalFiles, out.totalSize, now, out.truncatedFiles⟩⟩,
   tr1 ++ out.trace ++ [((95 : ℚ), "Finalizing export..."), ((100 : ℚ), "Export complete!")])

/-! ### Clipboard sink (copyToClipboard, copyToClipboardWithProgress,
generateAndExport)

The VSCode clipboard, dialog and file write calls are external collaborator
operations; their outcomes are supplied through an environment record so
that the orchestration logic of the source stays fully represented. -/

/-- The result record of the clipboard operations; absent optional fields
are none. -/
structure ClipResult where
  success : Bool
  error : Option String
  fallbackUsed : Option Bool
deriving Repr, DecidableEq

/-- Outcomes of the external operations the clipboard path awaits. -/
structure ClipEnv where
  confirmLarge : Bool
  primaryOk : Bool
  primaryErrMsg : String
  retryOk : Bool
  chooseSaveFile : Bool
  saveDialogReturns : Bool
  saveOk : Bool
deriving Repr, DecidableEq

/-- ExportService.copyToClipboard: primary write, then for content above
one megabyte one truncated retry, then the offer to save to a file, and the
final failure result carrying the primary error message. -/
def copyToClipboard (content : String) (env : ClipEnv) : ClipResult :=
  if env.primaryOk then ⟨true, none, none⟩
  else
    if 1048576 < content.length && env.retryOk then ⟨true, none, some true⟩
    else
      let failed : ClipResult :=
        ⟨false, some ("Clipboard operation failed: " ++ env.primaryErrMsg), none⟩
      if env.chooseSaveFile then
        if env.saveDialogReturns then
          if env.saveOk then ⟨true, none, some true⟩ else failed
        else failed
      else failed

/-- ExportService.copyToClipboardWithProgress: report zero, ask for
confirmation when the content is above ten megabytes (the float division by
two to the twentieth is exact, so the rational comparison is the same test)
and return the cancellation result when the user declines, otherwise report
fifty, run copyToClipboard and report one hundred. -/
def copyToClipboardWithProgress (content : String) (env : ClipEnv) :
    ClipResult × List (ℚ × String) :=
  let t0 : List (ℚ × String) := [((0 : ℚ), "Preparing clipboard operation...")]
  let proceed : ClipResult × List (ℚ × String) :=
    let r := copyToClipboard content env
    (r, t0 ++ [((50 : ℚ), "Copying to clipboard...")] ++
        [((100 : ℚ), if r.success then "Copied successfully!" else "Copy failed")])
  let sizeInMB : ℚ := (content.length : ℚ) / 1048576
  if 10 < sizeInMB then
    if env.confirmLarge then proceed
    else (⟨false, some "Operation cancelled by user", none⟩, t0)
  else proceed

/-- What generateAndExport resolves with, plus the ordered progress events
of the whole run. -/
structure GAEOut where
  result : ExportResult
  clipboardResult : Option ClipResult
  trace : List (ℚ × String)
deriving Repr, DecidableEq

/-- ExportService.generateAndExport: generate, then for clipboard output
report ninety five and run the clipboard phase with its progress rescaled
into the last five percent (ninety five plus progress times five
hundredths; exact in floats at the three values zero, fifty and one hundred
that occur). -/
def generateAndExport (fs : FileSystem) (selectedPaths : List String)
    (cfg : ExportConfiguration) (now : String) (env : ClipEnv) : GAEOut :=
  let gen := generateExport fs selectedPaths cfg now
  match cfg.outputMethod with
  | OutMethod.file => ⟨gen.1, none, gen.2⟩
  | OutMethod.clipboard =>
    let clip := copyToClipboardWithProgress gen.1.content env
    ⟨gen.1, some clip.1,
     gen.2 ++ ((95 : ℚ), "Copying to clipboard...") ::
       clip.2.map (fun e => ((95 : ℚ) + e.1 * (5 / 100 : ℚ), e.2))⟩

/-! ## Configuration validation (src/validation.ts)

validateExportConfiguration receives a partial configuration of arbitrary
JavaScript values, so the field values are modelled by a small JavaScript
value type with the truthiness, typeof and comparison behaviour the checks
exercise. NaN is a number typed value for which every ordering comparison
is false and which is falsy; arrays only ever hold strings here and the
validator never inspects their elements. The function is pure: it performs
no input or output, all rejections happen before any host call. -/

/-- JavaScript values as the validator distinguishes them. -/
inductive JSVal where
  | undef
  | boolV (b : Bool)
  | numV (q : ℚ)
  | nanV
  | strV (s : String)
  | arrV (elems : List String)
deriving Repr, DecidableEq

/-- JavaScript truthiness. -/
def truthy : JSVal → Bool
  | JSVal.undef => false
  | JSVal.boolV b => b
  | JSVal.numV q => q ≠ 0
  | JSVal.nanV => false
  | JSVal.strV s => s ≠ ""
  | JSVal.arrV _ => true

/-- typeof v === number. -/
def isNumberTyped : JSVal → Bool
  | JSVal.numV _ => true
  | JSVal.nanV => true
  | _ => false

/-- The comparison v <= 0; false for NaN and for non numbers (the source
only evaluates it on number typed values). -/
def jsLeZero : JSVal → Bool
  | JSVal.numV q => q ≤ 0
  | _ => false

/-- Array.isArray. -/
def isArrayV : JSVal → Bool
  | JSVal.arrV _ => true
  | _ => false

/-- v or default: JavaScript logical or. -/
def jsOr (v d : JSVal) : JSVal :=
  if truthy v then v else d

/-- v double question mark default: JavaScript nullish coalescing
(null is not distinguished from undefined here). -/
def jsNullish (v d : JSVal) : JSVal :=
  if v = JSVal.undef then d else v

/-- The partial configuration handed to validateExportConfiguration. -/
structure ConfigInput where
  format : JSVal
  outputMethod : JSVal
  includeDirectoryStructure : JSVal
  maxFileSize : JSVal
  excludePatterns : JSVal
  includePatterns : JSVal
  truncateThreshold : JSVal
deriving Repr, DecidableEq

/-- The configuration record the validator returns, defaults filled in. -/
structure ValidatedConfig where
  format : JSVal
  outputMethod : JSVal
  includeDirectoryStructure : JSVal
  maxFileSize : JSVal
  excludePatterns : JSVal
  includePatterns : JSVal
  truncateThreshold : JSVal
deriving Repr, DecidableEq

/-- The format check passes when the value is truthy and one of the two
enum strings (the includes test uses strict equality). -/
def fmtValOk (v : JSVal) : Bool :=
  truthy v && (v = JSVal.strV "txt" || v = JSVal.strV "md")

/-- The output method check. -/
def outValOk (v : JSVal) : Bool :=
  truthy v && (v = JSVal.strV "file" || v = JSVal.strV "clipboard")

/-- The numeric field check fails when the field is present and is not
number typed or compares less or equal to zero (NaN is number typed and
compares false, so it passes). -/
def numFieldBad (v : JSVal) : Bool :=
  v ≠ JSVal.undef && (!isNumberTyped v || jsLeZero v)

/-- The pattern list check fails when the field is truthy and not an array
(a falsy supplied value such as the empty string passes). -/
def patternFieldBad (v : JSVal) : Bool :=
  truthy v && !isArrayV v

/-- The collected error messages, in source order. -/
def validationErrors (c : ConfigInput) : List String :=
  (if fmtValOk c.format then [] else ["Format must be either \"txt\" or \"md\""]) ++
  (if outValOk c.outputMethod then [] else ["Output method must be either \"file\" or \"clipboard\""]) ++
  (if numFieldBad c.maxFileSize then ["maxFileSize must be a positive number"] else []) ++
  (if numFieldBad c.truncateThreshold then ["truncateThreshold must be a positive number"] else []) ++
  (if patternFieldBad c.excludePatterns then ["excludePatterns must be an array of strings"] else []) ++
  (if patternFieldBad c.includePatterns then ["includePatterns must be an array of strings"] else [])

/-- validateExportConfiguration: throw a ValidationError carrying the
joined messages when any check failed, otherwise return the configuration
with the or and nullish defaults of the source. -/
def validateExportConfiguration (c : ConfigInput) : Except String ValidatedConfig :=
  let errs := validationErrors c
  if errs.length > 0 then
    Except.error ("Configuration validation failed: " ++ String.intercalate ", " errs)
  else
    Except.ok
      { format := jsOr c.format (JSVal.strV "txt"),
        outputMethod := jsOr c.outputMethod (JSVal.strV "file"),
        includeDirectoryStructure := jsNullish c.includeDirectoryStructure (JSVal.boolV true),
        maxFileSize := jsOr c.maxFileSize (JSVal.numV 1048576),
        excludePatterns := jsOr c.excludePatterns (JSVal.arrV []),
        includePatterns := jsOr c.includePatterns (JSVal.arrV []),
        truncateThreshold := jsOr c.truncateThreshold (JSVal.numV 10485760) }

/-! ## Claim side eligibility (the set claim C1 describes)

The eligibility predicate exactly as the claim words it: a selected path
that is not a directory, not binary by extension, matches no exclude
pattern and, when include patterns are given, matches at least one of them.
This definition follows the claim (using the pattern matcher of the
source); the pipeline definition taken from the source is
filterValidFiles. -/
def claimEligibleFiles (fs : FileSystem) (cfg : ExportConfiguration)
    (selectedPaths : List String) : List String :=
  selectedPaths.filter (fun p =>
    !isDirectory fs p && !isBinaryFile p &&
    !(cfg.excludePatterns.any (fun pat => matchesPattern p pat = some true)) &&
    (cfg.includePatterns.isEmpty ||
      cfg.includePatterns.any (fun pat => matchesPattern p pat = some true)))

/-! ## Derived views of the pipeline used by the statements -/

/-- The fragment the export loop appends for one eligible file: the
formatted file on success, the inline error block on failure. -/
def fragOf (fs : FileSystem) (cfg : ExportConfiguration) (p : String) : String :=
  match processFile fs cfg p with
  | Except.ok r => r.content
  | Except.error msg => formatError p msg cfg.format

/-- Whether processing the file succeeds (the file is counted). -/
def okFile (fs : FileSystem) (cfg : ExportConfiguration) (p : String) : Bool :=
  (processFile fs cfg p).isOk

/-- The size a successfully processed file contributes (its full stat size,
zero is never used because the function is only applied to counted files). -/
def okSize (fs : FileSystem) (cfg : ExportConfiguration) (p : String) : Nat :=
  match processFile fs cfg p with
  | Except.ok r => r.size
  | Except.error _ => 0

/-- Whether the file is recorded as truncated. -/
def truncFlag (fs : FileSystem) (cfg : ExportConfiguration) (p : String) : Bool :=
  match processFile fs cfg p with
  | Except.ok r => r.truncated
  | Except.error _ => false

/-- The directory structure part of the content, empty when disabled. -/
def structPart (fs : FileSystem) (cfg : ExportConfiguration)
    (selectedPaths : List String) : String :=
  if cfg.includeDirectoryStructure then generateDirectoryStructure fs selectedPaths else ""

/-- The progress value reported before processing overall file j of n. -/
def pv (n j : Nat) : ℚ :=
  20 + ((j : ℚ) / (n : ℚ)) * 70

/-- A ten megabyte and one character content, used to exercise the very
large content confirmation of the clipboard path. -/
def bigContent : String :=
  String.mk (List.replicate 10485761 'a')

/-! ## Concrete instances used by the witnesses and counterexamples -/

/-- A file node of the webview tree. -/
def mkFile (p : String) (sel : Bool) : FNode :=
  FNode.mk { path := p, kind := NKind.file, selected := sel, indeterminate := false } FForest.nil

/-- A directory node of the webview tree. -/
def mkDir (p : String) (sel ind : Bool) (cs : FForest) : FNode :=
  FNode.mk { path := p, kind := NKind.directory, selected := sel, indeterminate := ind } cs

/-- The webview tree of the attachment scenario: the root holds an
unselected file and a selected, not yet loaded directory, so the root shows
the indeterminate state. This state arises by toggling the sub directory
checkbox before expanding it. -/
def cexForest : FForest :=
  FForest.cons
    (mkDir "." false true
      (FForest.cons (mkFile "f.txt" false)
        (FForest.cons (mkDir "sub" true false FForest.nil) FForest.nil)))
    FForest.nil

/-- The freshly loaded child of the sub directory, unselected as
FileTreeService.getDirectoryChildren delivers it. -/
def cexPending : List FNode :=
  [mkFile "sub/a.txt" false]

/-- An all clear tree used to exercise the toggle invariant. -/
def demoForest : FForest :=
  FForest.cons
    (mkDir "." false false
      (FForest.cons (mkFile "a.txt" false)
        (FForest.cons
          (mkDir "d" false false (FForest.cons (mkFile "d/x.ts" false) FForest.nil))
          FForest.nil)))
    FForest.nil

/-- A markdown file output configuration with a ten byte size limit. -/
def demoCfg : ExportConfiguration :=
  { format := Fmt.md, outputMethod := OutMethod.file, includeDirectoryStructure := false,
    maxFileSize := 10, excludePatterns := [], includePatterns := [],
    truncateThreshold := 10485760 }

/-- The same configuration with the exclude pattern of the eligibility
counterexample. -/
def demoCfgExclude : ExportConfiguration :=
  { demoCfg with excludePatterns := ["*.log"] }

/-- The clipboard output configuration of the progress counterexample. -/
def demoCfgClipboard : ExportConfiguration :=
  { format := Fmt.md, outputMethod := OutMethod.clipboard, includeDirectoryStructure := false,
    maxFileSize := 1048576, excludePatterns := [], includePatterns := [],
    truncateThreshold := 10485760 }

/-- A clipboard environment where every external operation succeeds. -/
def demoEnv : ClipEnv :=
  ⟨true, true, "", true, false, false, false⟩

/-- A clipboard environment whose very large content confirmation is
declined. -/
def declineEnv : ClipEnv :=
  ⟨false, true, "", true, false, false, false⟩

/-- A small host file system: a directory, a small text file, an oversized
text file, an unreadable file, a binary file and a log file. -/
def demoFs : FileSystem :=
  [("src", ⟨true, 0, none⟩),
   ("src/a.ts", ⟨false, 5, some "let x = 1"⟩),
   ("big.ts", ⟨false, 25, some "0123456789012345678901234"⟩),
   ("bad.ts", ⟨false, 7, none⟩),
   ("img.png", ⟨false, 3, some "xx"⟩),
   ("a.log", ⟨false, 4, some "logs"⟩)]

/-- The selection of the demonstration run. -/
def demoSel : List String :=
  ["src", "src/a.ts", "big.ts", "bad.ts", "img.png"]

/-- The partial configuration of the validation counterexample: valid
enums, an empty string supplied as the exclude pattern list. -/
def cexConfigInput : ConfigInput :=
  { format := JSVal.strV "md", outputMethod := JSVal.strV "file",
    includeDirectoryStructure := JSVal.undef, maxFileSize := JSVal.undef,
    excludePatterns := JSVal.strV "", includePatterns := JSVal.undef,
    truncateThreshold := JSVal.undef }

/-! ## Theorems

First a layer of helper lemmas about the chunk accumulator, the export
loop and the progress values; then one theorem (plus witness or
counterexample where required) per claim. -/

theorem catList_append (l1 l2 : List String) :
    catList (l1 ++ l2) = catList l1 ++ catList l2 := by
  induction l1 with
  | nil => simp [catList]
  | cons x xs ih => simp [catList, ih, String.append_assoc]

theorem catList_appendLast (l : List String) (s : String) :
    catList (appendLast l s) = catList l ++ s := by
  induction l with
  | nil => simp [appendLast, catList]
  | cons x xs ih =>
    cases xs with
    | nil => simp [appendLast, catList, String.append_assoc]
    | cons y ys =>
      simp only [appendLast, catList] at ih ⊢
      rw [ih]
      simp [String.append_assoc]

theorem joinChunks_pushOrAppend (st : ChunkSt) (s : String) :
    joinChunks (pushOrAppend st s) = joinChunks st ++ s := by
  unfold pushOrAppend joinChunks
  split
  · simp [catList_append, catList]
  · simp [catList_appendLast]

theorem exportLoop_st (fs : FileSystem) (cfg : ExportConfiguration) (n : Nat) :
    ∀ (l : List String) (i : Nat) (st : ChunkSt) (tf ts : Nat) (tr : List String),
    joinChunks (exportLoop fs cfg n l i st tf ts tr).st =
      joinChunks st ++ catList (l.map (fragOf fs cfg)) := by
  intro l
  induction l with
  | nil => intro i st tf ts tr; simp [exportLoop, catList]
  | cons p rest ih =>
    intro i st tf ts tr
    simp only [exportLoop, List.map, catList]
    cases hp : processFile fs cfg p with
    | ok r =>
      simp only [hp, ih, joinChunks_pushOrAppend, fragOf]
      simp [String.append_assoc]
    | error msg =>
      simp only [hp, ih, joinChunks_pushOrAppend, fragOf]
      simp [String.append_assoc]

theorem exportLoop_totalFiles (fs : FileSystem) (cfg : ExportConfiguration) (n : Nat) :
    ∀ (l : List String) (i : Nat) (st : ChunkSt) (tf ts : Nat) (tr : List String),
    (exportLoop fs cfg n l i st tf ts tr).totalFiles =
      tf + (l.filter (okFile fs cfg)).length := by
  intro l
  induction l with
  | nil => intro i st tf ts tr; simp [exportLoop]
  | cons p rest ih =>
    intro i st tf ts tr
    simp only [exportLoop]
    cases hp : processFile fs cfg p with
    | ok r =>
      simp only [hp, ih, List.filter]
      have : okFile fs cfg p = true := by simp [okFile, hp, Except.isOk, Except.toBool]
      simp [this]
      omega
    | error msg =>
      simp only [hp, ih, List.filter]
      have : okFile fs cfg p = false := by simp [okFile, hp, Except.isOk, Except.toBool]
      simp [this]

theorem exportLoop_totalSize (fs : FileSystem) (cfg : ExportConfiguration) (n : Nat) :
    ∀ (l : List String) (i : Nat) (st : ChunkSt) (tf ts : Nat) (tr : List String),
    (exportLoop fs cfg n l i st tf ts tr).totalSize =
      ts + (((l.filter (okFile fs cfg)).map (okSize fs cfg)).sum) := by
  intro l
  induction l with
  | nil => intro i st tf ts tr; simp [exportLoop]
  | cons p rest ih =>
    intro i st tf ts tr
    simp only [exportLoop]
    cases hp : processFile fs cfg p with
    | ok r =>
      have hok : okFile fs cfg p = true := by simp [okFile, hp, Except.isOk, Except.toBool]
      have hsz : okSize fs cfg p = r.size := by simp [okSize, hp]
      simp only [hp, ih, List.filter, hok, if_true]
      simp [hsz]
      omega
    | error msg =>
      have hok : okFile fs cfg p = false := by simp [okFile, hp, Except.isOk, Except.toBool]
      simp only [hp, ih, List.filter, hok]

theorem exportLoop_truncated (fs : FileSystem) (cfg : ExportConfiguration) (n : Nat) :
    ∀ (l : List String) (i : Nat) (st : ChunkSt) (tf ts : Nat) (tr : List String),
    (exportLoop fs cfg n l i st tf ts tr).truncatedFiles =
      tr ++ l.filter (truncFlag fs cfg) := by
  intro l
  induction l with
  | nil => intro i st tf ts tr; simp [exportLoop]
  | cons p rest ih =>
    intro i st tf ts tr
    simp only [exportLoop]
    cases hp : processFile fs cfg p with
    | ok r =>
      have htr : truncFlag fs cfg p = r.truncated := by simp [truncFlag, hp]
      simp only [hp, ih, List.filter, htr]
      cases r.truncated <;> simp
    | error msg =>
      have htr : truncFlag fs cfg p = false := by simp [truncFlag, hp]
      simp only [hp, ih, List.filter, htr]

theorem exportLoop_traceVals (fs : FileSystem) (cfg : ExportConfiguration) (n : Nat) :
    ∀ (l : List String) (i : Nat) (st : ChunkSt) (tf ts : Nat) (tr : List String),
    (exportLoop fs cfg n l i st tf ts tr).trace.map Prod.fst =
      (List.range' i l.length).map (pv n) := by
  intro l
  induction l with
  | nil => intro i st tf ts tr; simp [exportLoop]
  | cons p rest ih =>
    intro i st tf ts tr
    simp only [exportLoop]
    cases hp : processFile fs cfg p with
    | ok r =>
      simp only [hp, List.length_cons, List.range', List.map, ih]
      simp [pv]
    | error msg =>
      simp only [hp, List.length_cons, List.range', List.map, ih]
      simp [pv]

theorem generateExport_content (fs : FileSystem) (sel : List String)
    (cfg : ExportConfiguration) (now : String) :
    (generateExport fs sel cfg now).1.content =
      generateHeader cfg now ++ structPart fs cfg sel ++
      catList ((filterValidFiles fs sel).map (fragOf fs cfg)) ++
      generateFooter cfg (generateExport fs sel cfg now).1.metadata.totalFiles
        (generateExport fs sel cfg now).1.metadata.totalSize
        (generateExport fs sel cfg now).1.metadata.truncatedFiles := by
  cases hs : cfg.includeDirectoryStructure with
  | true =>
    simp only [generateExport, hs, if_true, structPart]
    simp only [joinChunks_pushOrAppend, exportLoop_st]
    simp [joinChunks, catList, String.append_assoc]
  | false =>
    simp only [generateExport, hs, structPart]
    simp only [joinChunks_pushOrAppend, exportLoop_st]
    simp [joinChunks, catList, String.append_assoc]

theorem generateExport_totalFiles (fs : FileSystem) (sel : List String)
    (cfg : ExportConfiguration) (now : String) :
    (generateExport fs sel cfg now).1.metadata.totalFiles =
      ((filterValidFiles fs sel).filter (okFile fs cfg)).length := by
  simp [generateExport, exportLoop_totalFiles]

theorem generateExport_totalSize (fs : FileSystem) (sel : List String)
    (cfg : ExportConfiguration) (now : String) :
    (generateExport fs sel cfg now).1.metadata.totalSize =
      (((filterValidFiles fs sel).filter (okFile fs cfg)).map (okSize fs cfg)).sum := by
  simp [generateExport, exportLoop_totalSize]

theorem generateExport_truncated (fs : FileSystem) (sel : List String)
    (cfg : ExportConfiguration) (now : String) :
    (generateExport fs sel cfg now).1.metadata.truncatedFiles =
      (filterValidFiles fs sel).filter (truncFlag fs cfg) := by
  simp [generateExport, exportLoop_truncated]

theorem generateExport_traceVals (fs : FileSystem) (sel : List String)
    (cfg : ExportConfiguration) (now : String) :
    (generateExport fs sel cfg now).2.map Prod.fst =
      (if cfg.includeDirectoryStructure then [(10 : ℚ)] else []) ++
      (List.range' 0 (filterValidFiles fs sel).length).map (pv (filterValidFiles fs sel).length) ++
      [(95 : ℚ), (100 : ℚ)] := by
  cases hs : cfg.includeDirectoryStructure with
  | true =>
    simp only [generateExport, hs, if_true]
    simp [exportLoop_traceVals]
  | false =>
    simp only [generateExport, hs]
    simp [exportLoop_traceVals]

theorem pv_bounds (n j : Nat) (hj : j < n) : 20 ≤ pv n j ∧ pv n j ≤ 90 := by
  have hn : (0 : ℚ) < (n : ℚ) := by
    have h2 : 0 < n := Nat.lt_of_le_of_lt (Nat.zero_le j) hj
    exact_mod_cast h2
  have h1 : (j : ℚ) / (n : ℚ) ≤ 1 := by
    rw [div_le_one hn]
    exact_mod_cast Nat.le_of_lt hj
  have h0 : (0 : ℚ) ≤ (j : ℚ) / (n : ℚ) := by
    apply div_nonneg
    · exact_mod_cast Nat.zero_le j
    · exact le_of_lt hn
  unfold pv
  constructor <;> nlinarith

theorem pv_step (n j : Nat) (hn : 0 < n) : pv n j ≤ pv n (j + 1) := by
  have hnq : (0 : ℚ) < (n : ℚ) := by exact_mod_cast hn
  have h : (j : ℚ) / (n : ℚ) ≤ ((j : ℚ) + 1) / (n : ℚ) :=
    div_le_div_of_nonneg_right (by linarith) (le_of_lt hnq)
  unfold pv
  push_cast
  nlinarith

theorem chain_pv (n : Nat) :
    ∀ (k i : Nat), i + k ≤ n →
    List.Chain' (· ≤ ·) ((List.range' i k).map (pv n)) := by
  intro k
  induction k with
  | zero => intro i _; simp
  | succ k ih =>
    intro i hik
    have hn : 0 < n := by omega
    cases k with
    | zero => simp [List.range']
    | succ k2 =>
      have hstep : pv n i ≤ pv n (i + 1) := pv_step n i hn
      have hrest := ih (i + 1) (by omega)
      simp only [List.range', List.map] at hrest ⊢
      exact List.chain'_cons.mpr ⟨hstep, hrest⟩

theorem mem_range'_pv_bounds (n k i : Nat) (hik : i + k ≤ n) :
    ∀ v ∈ (List.range' i k).map (pv n), 20 ≤ v ∧ v ≤ 90 := by
  intro v hv
  rcases List.mem_map.mp hv with ⟨j, hj, rfl⟩
  have hj2 : i ≤ j ∧ j < i + k := by
    have := List.mem_range'_1.mp hj
    exact this
  exact pv_bounds n j (by omega)

theorem clip_trace_vals (content : String) (env : ClipEnv) :
    (copyToClipboardWithProgress content env).2.map Prod.fst =
      (if (10 : ℚ) < (content.length : ℚ) / 1048576 ∧ env.confirmLarge = false
       then [(0 : ℚ)]
       else [(0 : ℚ), (50 : ℚ), (100 : ℚ)]) := by
  unfold copyToClipboardWithProgress
  by_cases hbig : (10 : ℚ) < (content.length : ℚ) / 1048576
  · cases hc : env.confirmLarge with
    | true => simp [hbig, hc]
    | false => simp [hbig, hc]
  · simp [hbig]

theorem clip_result_cancel (content : String) (env : ClipEnv)
    (hbig : (10 : ℚ) < (content.length : ℚ) / 1048576)
    (hc : env.confirmLarge = false) :
    (copyToClipboardWithProgress content env).1 =
      ⟨false, some "Operation cancelled by user", none⟩ := by
  unfold copyToClipboardWithProgress
  simp [hbig, hc]

theorem memOfHeadQ {α : Type} {l : List α} {a : α} (h : l.head? = some a) : a ∈ l := by
  cases l with
  | nil => simp at h
  | cons x xs =>
    simp at h
    simp [h]

theorem memOfGetLastQ {α : Type} {l : List α} {a : α} (h : l.getLast? = some a) : a ∈ l := by
  induction l with
  | nil => simp at h
  | cons x xs ih =>
    cases hx : xs with
    | nil =>
      subst hx
      simp at h
      simp [h]
    | cons y ys =>
      subst hx
      rw [List.getLast?_cons_cons] at h
      exact List.mem_cons_of_mem x (ih h)

theorem chain_gen_trace (n : Nat) (incl : Bool) :
    List.Chain' (· ≤ ·)
      ((if incl then [(10 : ℚ)] else []) ++ (List.range' 0 n).map (pv n) ++
        [(95 : ℚ), (100 : ℚ)]) := by
  have hfiles : List.Chain' (· ≤ ·) ((List.range' 0 n).map (pv n)) :=
    chain_pv n n 0 (by omega)
  have htail : List.Chain' (· ≤ ·) [(95 : ℚ), (100 : ℚ)] :=
    List.chain'_cons.mpr ⟨by norm_num, List.chain'_singleton 100⟩
  have hmid : List.Chain' (· ≤ ·) ((List.range' 0 n).map (pv n) ++ [(95 : ℚ), (100 : ℚ)]) := by
    rw [List.chain'_append]
    refine ⟨hfiles, htail, ?_⟩
    intro x hx y hy
    have hxm : x ∈ (List.range' 0 n).map (pv n) := memOfGetLastQ hx
    have hxb := mem_range'_pv_bounds n n 0 (by omega) x hxm
    have hym : y ∈ [(95 : ℚ), (100 : ℚ)] := memOfHeadQ hy
    rcases List.mem_cons.mp hym with h95 | hrest
    · rw [h95]; linarith [hxb.2]
    · have : y = 100 := by simpa using hrest
      rw [this]; linarith [hxb.2]
  cases incl with
  | false => simpa using hmid
  | true =>
    simp only [if_true]
    rw [List.append_assoc, List.chain'_append]
    refine ⟨List.chain'_singleton 10, by simpa using hmid, ?_⟩
    intro x hx y hy
    have hx10 : x = 10 := by
      have h2 := hx
      simp at h2
      exact h2.symm
    have hym : y ∈ (List.range' 0 n).map (pv n) ++ [(95 : ℚ), (100 : ℚ)] := by
      apply memOfHeadQ
      simpa using hy
    subst hx10
    rcases List.mem_append.mp hym with hB | hC
    · have := mem_range'_pv_bounds n n 0 (by omega) y hB
      linarith [this.1]
    · rcases List.mem_cons.mp hC with h95 | hrest
      · rw [h95]; norm_num
      · have : y = 100 := by simpa using hrest
        rw [this]; norm_num

theorem getLastQ_concat {α : Type} (l : List α) (a : α) :
    (l ++ [a]).getLast? = some a := by
  induction l with
  | nil => simp
  | cons x xs ih =>
    cases xs with
    | nil => simp
    | cons y ys => simpa using ih

theorem gen_trace_bounds (fs : FileSystem) (sel : List String)
    (cfg : ExportConfiguration) (now : String) :
    ∀ v ∈ (generateExport fs sel cfg now).2.map Prod.fst, 0 ≤ v ∧ v ≤ 100 := by
  intro v hv
  rw [generateExport_traceVals] at hv
  rcases List.mem_append.mp hv with hAB | hC
  · rcases List.mem_append.mp hAB with hA | hB
    · have : v = 10 := by
        cases cfg.includeDirectoryStructure <;> simp_all
      rw [this]; norm_num
    · have := mem_range'_pv_bounds (filterValidFiles fs sel).length
        (filterValidFiles fs sel).length 0 (by omega) v hB
      constructor <;> linarith [this.1, this.2]
  · rcases List.mem_cons.mp hC with h95 | hrest
    · rw [h95]; norm_num
    · have : v = 100 := by simpa using hrest
      rw [this]; norm_num

theorem gen_trace_last (fs : FileSystem) (sel : List String)
    (cfg : ExportConfiguration) (now : String) :
    ((generateExport fs sel cfg now).2.map Prod.fst).getLast? = some 100 := by
  rw [generateExport_traceVals]
  have h : (if cfg.includeDirectoryStructure then [(10 : ℚ)] else []) ++
      (List.range' 0 (filterValidFiles fs sel).length).map (pv (filterValidFiles fs sel).length) ++
      [(95 : ℚ), (100 : ℚ)] =
      ((if cfg.includeDirectoryStructure then [(10 : ℚ)] else []) ++
      (List.range' 0 (filterValidFiles fs sel).length).map (pv (filterValidFiles fs sel).length) ++
      [(95 : ℚ)]) ++ [(100 : ℚ)] := by
    simp
  rw [h, getLastQ_concat]

theorem gen_trace_chain (fs : FileSystem) (sel : List String)
    (cfg : ExportConfiguration) (now : String) :
    List.Chain' (· ≤ ·) ((generateExport fs sel cfg now).2.map Prod.fst) := by
  rw [generateExport_traceVals]
  exact chain_gen_trace (filterValidFiles fs sel).length cfg.includeDirectoryStructure

theorem gae_clip_trace_vals (fs : FileSystem) (sel : List String)
    (cfg : ExportConfiguration) (now : String) (env : ClipEnv)
    (hcm : cfg.outputMethod = OutMethod.clipboard) :
    (generateAndExport fs sel cfg now env).trace.map Prod.fst =
      (generateExport fs sel cfg now).2.map Prod.fst ++
      (95 : ℚ) ::
        (if (10 : ℚ) < ((generateExport fs sel cfg now).1.content.length : ℚ) / 1048576 ∧
            env.confirmLarge = false
         then [(95 : ℚ)]
         else [(95 : ℚ), (195 / 2 : ℚ), (100 : ℚ)]) := by
  simp only [generateAndExport, hcm]
  rw [List.map_append]
  congr 1
  simp only [List.map_cons, List.map_map]
  congr 1
  have hmap : ∀ (l : List (ℚ × String)),
      l.map (Prod.fst ∘ fun e => ((95 : ℚ) + e.1 * (5 / 100 : ℚ), e.2)) =
      (l.map Prod.fst).map (fun q => (95 : ℚ) + q * (5 / 100 : ℚ)) := by
    intro l
    rw [List.map_map]
    rfl
  rw [hmap, clip_trace_vals]
  by_cases hcond : (10 : ℚ) < ((generateExport fs sel cfg now).1.content.length : ℚ) / 1048576 ∧
      env.confirmLarge = false
  · simp only [hcond, if_true, if_pos hcond]
    norm_num
  · simp only [if_neg hcond]
    norm_num

theorem getLastQ_append_last {α : Type} (l m : List α) (a : α) :
    (l ++ (m ++ [a])).getLast? = some a := by
  rw [← List.append_assoc]
  exact getLastQ_concat _ a

/-- C7 (corrected, amended): every reported progress value lies between
zero and one hundred; for file output the reported sequence is
monotonically non decreasing and its last value is exactly one hundred;
for clipboard output the last value is one hundred unless the very large
content confirmation is declined, in which case the run ends at ninety
five. (As the counterexample shows, the clipboard sequence is not non
decreasing: the generation phase reports one hundred before the clipboard
phase restarts at ninety five, so the monotonicity part of the original
claim holds only for the file output method.) -/
theorem progress_values_amended (fs : FileSystem) (sel : List String)
    (cfg : ExportConfiguration) (now : String) (env : ClipEnv) :
    (∀ v ∈ (generateAndExport fs sel cfg now env).trace.map Prod.fst, 0 ≤ v ∧ v ≤ 100) ∧
    (cfg.outputMethod = OutMethod.file →
      List.Chain' (· ≤ ·) ((generateAndExport fs sel cfg now env).trace.map Prod.fst) ∧
      ((generateAndExport fs sel cfg now env).trace.map Prod.fst).getLast? = some 100) ∧
    (cfg.outputMethod = OutMethod.clipboard →
      (((10 : ℚ) < ((generateExport fs sel cfg now).1.content.length : ℚ) / 1048576 ∧
          env.confirmLarge = false) →
        ((generateAndExport fs sel cfg now env).trace.map Prod.fst).getLast? = some 95) ∧
      (¬ ((10 : ℚ) < ((generateExport fs sel cfg now).1.content.length : ℚ) / 1048576 ∧
          env.confirmLarge = false) →
        ((generateAndExport fs sel cfg now env).trace.map Prod.fst).getLast? = some 100)) := by
  cases hm : cfg.outputMethod with
  | file =>
    have heq : (generateAndExport fs sel cfg now env).trace = (generateExport fs sel cfg now).2 := by
      simp [generateAndExport, hm]
    refine ⟨?_, ?_, ?_⟩
    · rw [heq]
      exact gen_trace_bounds fs sel cfg now
    · intro _
      rw [heq]
      exact ⟨gen_trace_chain fs sel cfg now, gen_trace_last fs sel cfg now⟩
    · intro hcm
      exact OutMethod.noConfusion hcm
  | clipboard =>
    have heq := gae_clip_trace_vals fs sel cfg now env hm
    refine ⟨?_, ?_, ?_⟩
    · intro v hv
      rw [heq] at hv
      rcases List.mem_append.mp hv with hg | hc
      · exact gen_trace_bounds fs sel cfg now v hg
      · rcases List.mem_cons.mp hc with h95 | hrest
        · rw [h95]; norm_num
        · by_cases hcond : (10 : ℚ) < ((generateExport fs sel cfg now).1.content.length : ℚ) / 1048576 ∧
              env.confirmLarge = false
          · rw [if_pos hcond] at hrest
            have hv95 : v = 95 := by simpa using hrest
            rw [hv95]; norm_num
          · rw [if_neg hcond] at hrest
            have hv3 : v = 95 ∨ v = 195 / 2 ∨ v = 100 := by simpa using hrest
            rcases hv3 with h | h | h
            all_goals (rw [h]; constructor <;> norm_num)
    · intro hf
      exact OutMethod.noConfusion hf
    · intro _
      constructor
      · intro hcond
        rw [heq, if_pos hcond]
        rw [show ((95 : ℚ) :: [(95 : ℚ)]) = [(95 : ℚ)] ++ [(95 : ℚ)] from rfl]
        exact getLastQ_append_last _ _ _
      · intro hncond
        rw [heq, if_neg hncond]
        rw [show ((95 : ℚ) :: [(95 : ℚ), (195 / 2 : ℚ), (100 : ℚ)]) =
          [(95 : ℚ), (95 : ℚ), (195 / 2 : ℚ)] ++ [(100 : ℚ)] from rfl]
        exact getLastQ_append_last _ _ _

/-- C7 counterexample: in a clipboard output run the reported progress
sequence is ninety five, one hundred, ninety five, ninety five, ninety
seven and a half, one hundred, which drops after the generation phase, so
the sequence of progress values of a run is not monotonically non
decreasing as the claim states. -/
theorem progress_monotonicity_cex :
    (generateAndExport [] [] demoCfgClipboard "2024-01-01T00:00:00.000Z" demoEnv).trace.map
        Prod.fst = [(95 : ℚ), 100, 95, 95, 195 / 2, 100] ∧
    ¬ List.Chain' (· ≤ ·)
      ((generateAndExport [] [] demoCfgClipboard "2024-01-01T00:00:00.000Z" demoEnv).trace.map
        Prod.fst) := by
  have hm : demoCfgClipboard.outputMethod = OutMethod.clipboard := rfl
  have heq := gae_clip_trace_vals [] [] demoCfgClipboard "2024-01-01T00:00:00.000Z" demoEnv hm
  have hlen : (generateExport [] [] demoCfgClipboard "2024-01-01T00:00:00.000Z").1.content.length
      = 136 := rfl
  have hcond : ¬ ((10 : ℚ) <
      ((generateExport [] [] demoCfgClipboard "2024-01-01T00:00:00.000Z").1.content.length : ℚ) /
        1048576 ∧ demoEnv.confirmLarge = false) := by
    intro hc
    have h1 := hc.1
    rw [hlen] at h1
    norm_num at h1
  have hgen : (generateExport [] [] demoCfgClipboard "2024-01-01T00:00:00.000Z").2.map Prod.fst
      = [(95 : ℚ), 100] := by
    rw [generateExport_traceVals]
    simp [show demoCfgClipboard.includeDirectoryStructure = false from rfl,
          show (filterValidFiles ([] : FileSystem) ([] : List String)) = [] from rfl]
  have hfull : (generateAndExport [] [] demoCfgClipboard "2024-01-01T00:00:00.000Z"
      demoEnv).trace.map Prod.fst = [(95 : ℚ), 100, 95, 95, 195 / 2, 100] := by
    rw [heq, if_neg hcond, hgen]
    rfl
  refine ⟨hfull, ?_⟩
  rw [hfull]
  intro hch
  have h1 := (List.chain'_cons.mp hch).2
  have h2 := (List.chain'_cons.mp h1).1
  norm_num at h2

/-- C7 witness: the amended theorem applied to a concrete file output run. -/
theorem progress_values_amended_witness :
    List.Chain' (· ≤ ·)
      ((generateAndExport demoFs demoSel demoCfg "T" demoEnv).trace.map Prod.fst) ∧
    ((generateAndExport demoFs demoSel demoCfg "T" demoEnv).trace.map Prod.fst).getLast? =
      some 100 :=
  (progress_values_amended demoFs demoSel demoCfg "T" demoEnv).2.1 rfl

/-- C1 counterexample: a selected log file with an exclude pattern that
matches it (under the pattern matcher of the source). The claim says the
eligible set drops it, but filterValidFiles keeps it and the pipeline
counts it as processed. -/
theorem eligible_files_cex :
    matchesPattern "a.log" "*.log" = some true ∧
    claimEligibleFiles demoFs demoCfgExclude ["a.log"] = [] ∧
    filterValidFiles demoFs ["a.log"] = ["a.log"] ∧
    (generateExport demoFs ["a.log"] demoCfgExclude "T").1.metadata.totalFiles = 1 := by
  refine ⟨by decide, by decide, by decide, by decide⟩

/-- C1 (corrected, amended): the set of files the export pipeline
processes is exactly the selected paths that are not directories and not
binary by extension, in input order; the exclude and include patterns of
the configuration are not consulted by the pipeline. The second conjunct
shows the produced document is the header, the optional structure block,
one fragment per file of exactly that set in order, and the footer. -/
theorem eligible_files_amended (fs : FileSystem) (sel : List String) (p : String) :
    (p ∈ filterValidFiles fs sel ↔
      (p ∈ sel ∧ isDirectory fs p = false ∧ isBinaryFile p = false)) ∧
    (∀ (cfg : ExportConfiguration) (now : String),
      (generateExport fs sel cfg now).1.content =
        generateHeader cfg now ++ structPart fs cfg sel ++
        catList ((filterValidFiles fs sel).map (fragOf fs cfg)) ++
        generateFooter cfg (generateExport fs sel cfg now).1.metadata.totalFiles
          (generateExport fs sel cfg now).1.metadata.totalSize
          (generateExport fs sel cfg now).1.metadata.truncatedFiles) := by
  constructor
  · simp [filterValidFiles, List.mem_filter]
  · intro cfg now
    exact generateExport_content fs sel cfg now

/-- C3: evaluation of the source pattern matcher at the failing input. The
doublestar compiles to a dot followed by a starred non separator class,
because the single star replacement also rewrites the dot star that the
doublestar replacement produced. Hence a doublestar matches one arbitrary
character followed by non separators only and does not cross path
separator boundaries: a/b/c.ts fails against the doublestar pattern that
the claimed semantics (globSpecMatches, from the claim words) accepts,
while a path with a single separator still matches, which hides the slip
in shallow trees. -/
theorem matchesPattern_doublestar_failing_input :
    globToRegexString "**/*.ts" = ".[^/]*/[^/]*\\.ts" ∧
    matchesPattern "a/b/c.ts" "**/*.ts" = some false ∧
    globSpecMatches "a/b/c.ts" "**/*.ts" = true ∧
    matchesPattern "src/a.ts" "**/*.ts" = some true ∧
    matchesPattern "node_modules/a/b.js" "node_modules/**" = some false ∧
    globSpecMatches "node_modules/a/b.js" "node_modules/**" = true := by
  refine ⟨by decide, by decide, by decide, by decide, by decide, by decide⟩

/-- C4: evaluation of updateNodeChildren at the failing input. The sub
directory of cexForest is selected before its children load, yet the
freshly attached child arrives unselected, because the inheritance
assignment of the source runs while scanning every node that has a
children field (here only the root, which is unselected) rather than at
the found target directory, contradicting the inline comment of the
source that newly loaded children be updated from their parent. -/
theorem updateNodeChildren_failing_input :
    ((nodeAtF cexForest [0, 1]).map (fun n => n.data.selected) = some true) ∧
    (updateNodeChildren cexForest "sub" cexPending).2.2 = true ∧
    ((nodeAtF (updateNodeChildren cexForest "sub" cexPending).1 [0, 1, 0]).map
        (fun n => n.data.selected) = some false) := by
  refine ⟨by decide, by decide, by decide⟩

/-- C8 counterexample: a partial configuration whose exclude pattern list
is supplied as the empty string, which is present and not an array. The
claim requires rejection, but validation succeeds and silently replaces
the value by the empty array default. -/
theorem validation_accepts_falsy_pattern_cex :
    cexConfigInput.excludePatterns ≠ JSVal.undef ∧
    isArrayV cexConfigInput.excludePatterns = false ∧
    validateExportConfiguration cexConfigInput =
      Except.ok { format := JSVal.strV "md", outputMethod := JSVal.strV "file",
                  includeDirectoryStructure := JSVal.boolV true,
                  maxFileSize := JSVal.numV 1048576,
                  excludePatterns := JSVal.arrV [], includePatterns := JSVal.arrV [],
                  truncateThreshold := JSVal.numV 10485760 } := by
  refine ⟨by decide, by decide, rfl⟩

/-- C8 (corrected, amended): validation, a pure function raising its typed
error before any host call, rejects exactly the configurations whose
format or output method is missing, falsy or outside its allowed enum set,
whose maxFileSize or truncateThreshold is supplied and is not number typed
or compares less or equal to zero, or whose pattern list is supplied as a
truthy non array value. A falsy supplied pattern list (such as the empty
string) or a NaN numeric field passes validation and is silently replaced
by its default, so the original claim fails for those values. -/
theorem validateExportConfiguration_rejects_iff (c : ConfigInput) :
    (validateExportConfiguration c).isOk =
      (fmtValOk c.format && outValOk c.outputMethod &&
       !numFieldBad c.maxFileSize && !numFieldBad c.truncateThreshold &&
       !patternFieldBad c.excludePatterns && !patternFieldBad c.includePatterns) := by
  unfold validateExportConfiguration validationErrors
  cases h1 : fmtValOk c.format <;> cases h2 : outValOk c.outputMethod <;>
    cases h3 : numFieldBad c.maxFileSize <;> cases h4 : numFieldBad c.truncateThreshold <;>
    cases h5 : patternFieldBad c.excludePatterns <;>
    cases h6 : patternFieldBad c.includePatterns <;>
    simp [Except.isOk, Except.toBool]

/-- C9 (corrected, amended): declining the very large content confirmation
makes copyToClipboardWithProgress return the constant result with success
false, the error message Operation cancelled by user and no fallback flag,
for every clipboard sink environment (so no write is attempted); the
cancellation is reported through the same failure shaped result as real
failures and is distinguishable only by its error string. -/
theorem cancel_returns_failure_result (content : String) (env : ClipEnv)
    (hbig : (10 : ℚ) < (content.length : ℚ) / 1048576)
    (hc : env.confirmLarge = false) :
    (copyToClipboardWithProgress content env).1 =
      ⟨false, some "Operation cancelled by user", none⟩ :=
  clip_result_cancel content env hbig hc

/-- C9 witness: the amended theorem applied to a content one character
above the ten megabyte threshold with the confirmation declined. -/
theorem cancel_returns_failure_result_witness :
    (10 : ℚ) < (bigContent.length : ℚ) / 1048576 ∧
    declineEnv.confirmLarge = false ∧
    (copyToClipboardWithProgress bigContent declineEnv).1 =
      ⟨false, some "Operation cancelled by user", none⟩ := by
  have h0 : bigContent.length = (List.replicate 10485761 'a').length := rfl
  have hlen : bigContent.length = 10485761 := by
    rw [h0, List.length_replicate]
  have hbig : (10 : ℚ) < (bigContent.length : ℚ) / 1048576 := by
    rw [hlen]
    norm_num
  exact ⟨hbig, rfl, cancel_returns_failure_result bigContent declineEnv hbig rfl⟩

/-- C9 counterexample: the declined confirmation ends with success false
and an error message, so it is reported as a failure that carries an
error, not as a distinct error free cancellation outcome. -/
theorem cancel_reported_as_failure_cex :
    (copyToClipboardWithProgress bigContent declineEnv).1.success = false ∧
    (copyToClipboardWithProgress bigContent declineEnv).1.error ≠ none := by
  have h0 : bigContent.length = (List.replicate 10485761 'a').length := rfl
  have hlen : bigContent.length = 10485761 := by
    rw [h0, List.length_replicate]
  have hbig : (10 : ℚ) < (bigContent.length : ℚ) / 1048576 := by
    rw [hlen]
    norm_num
  have h := clip_result_cancel bigContent declineEnv hbig rfl
  rw [h]
  exact ⟨rfl, by simp⟩

theorem count_filter_of_pos {α : Type} [DecidableEq α] (l : List α) (q : α → Bool) (a : α)
    (h : q a = true) : (l.filter q).count a = l.count a := by
  induction l with
  | nil => simp
  | cons x xs ih =>
    by_cases hxa : x = a
    · subst hxa
      simp [List.filter, h, List.count_cons, ih]
    · cases hqx : q x with
      | true => simp [List.filter, hqx, List.count_cons, ih, hxa]
      | false => simp [List.filter, hqx, List.count_cons, ih, hxa]

theorem count_filter_of_neg {α : Type} [DecidableEq α] (l : List α) (q : α → Bool) (a : α)
    (h : q a = false) : (l.filter q).count a = 0 := by
  induction l with
  | nil => simp
  | cons x xs ih =>
    by_cases hxa : x = a
    · subst hxa
      simp [List.filter, h, ih]
    · cases hqx : q x with
      | true => simp [List.filter, hqx, List.count_cons, ih, hxa]
      | false => simp [List.filter, hqx, ih]

theorem processedBody_of_big (fs : FileSystem) (cfg : ExportConfiguration) (p : String)
    (e : FSEntry) (c : String) (hl : fsLookup fs p = some e) (hc : e.content = some c)
    (hsz : cfg.maxFileSize < e.size) :
    processedBody fs cfg p =
      Except.ok (c.take (cfg.maxFileSize * 4 / 5) ++ truncationMarker, true) := by
  unfold processedBody getFileStats getFileContent
  rw [hl]
  simp [hc, hsz]

theorem processedBody_of_small (fs : FileSystem) (cfg : ExportConfiguration) (p : String)
    (e : FSEntry) (c : String) (hl : fsLookup fs p = some e) (hc : e.content = some c)
    (hsz : e.size ≤ cfg.maxFileSize) :
    processedBody fs cfg p = Except.ok (c, false) := by
  unfold processedBody getFileStats getFileContent
  rw [hl]
  simp [hc]
  omega

theorem processFile_of_body (fs : FileSystem) (cfg : ExportConfiguration) (p : String)
    (e : FSEntry) (b : String) (t : Bool) (hl : fsLookup fs p = some e)
    (hb : processedBody fs cfg p = Except.ok (b, t)) :
    processFile fs cfg p =
      Except.ok ⟨formatFileContent p b cfg.format, e.size, t⟩ := by
  unfold processFile getFileStats
  rw [hl, hb]

/-- C5 (confirmed): in a run over distinct eligible paths, an eligible and
readable file whose on disk byte size exceeds maxFileSize is recorded in
truncatedFiles exactly once and its emitted body is the cut content with
the truncation marker appended at the end (the emitted fragment is that
body in the per file framing); a file at or below the limit is never
recorded in truncatedFiles and its body is the unmodified content. -/
theorem truncation_marker_and_count (fs : FileSystem) (sel : List String)
    (cfg : ExportConfiguration) (now : String) (p : String) (e : FSEntry) (c : String)
    (hnd : (filterValidFiles fs sel).Nodup)
    (hp : p ∈ filterValidFiles fs sel)
    (hl : fsLookup fs p = some e)
    (hc : e.content = some c) :
    (cfg.maxFileSize < e.size →
      (generateExport fs sel cfg now).1.metadata.truncatedFiles.count p = 1 ∧
      processedBody fs cfg p =
        Except.ok (c.take (cfg.maxFileSize * 4 / 5) ++ truncationMarker, true) ∧
      fragOf fs cfg p =
        formatFileContent p (c.take (cfg.maxFileSize * 4 / 5) ++ truncationMarker)
          cfg.format) ∧
    (e.size ≤ cfg.maxFileSize →
      (generateExport fs sel cfg now).1.metadata.truncatedFiles.count p = 0 ∧
      processedBody fs cfg p = Except.ok (c, false) ∧
      fragOf fs cfg p = formatFileContent p c cfg.format) := by
  constructor
  · intro hsz
    have hb := processedBody_of_big fs cfg p e c hl hc hsz
    have hf := processFile_of_body fs cfg p e _ true hl hb
    have htr : truncFlag fs cfg p = true := by simp [truncFlag, hf]
    refine ⟨?_, hb, ?_⟩
    · rw [generateExport_truncated, count_filter_of_pos _ _ _ htr]
      exact List.count_eq_one_of_mem hnd hp
    · simp [fragOf, hf]
  · intro hsz
    have hb := processedBody_of_small fs cfg p e c hl hc hsz
    have hf := processFile_of_body fs cfg p e _ false hl hb
    have htr : truncFlag fs cfg p = false := by simp [truncFlag, hf]
    refine ⟨?_, hb, ?_⟩
    · rw [generateExport_truncated, count_filter_of_neg _ _ _ htr]
    · simp [fragOf, hf]

/-- C5 witness: the oversized file of the demonstration run is recorded
once and its body carries the marker; the small file is not recorded. -/
theorem truncation_marker_and_count_witness :
    (generateExport demoFs demoSel demoCfg "T").1.metadata.truncatedFiles.count "big.ts" = 1 ∧
    processedBody demoFs demoCfg "big.ts" =
      Except.ok ("0123456789012345678901234".take (demoCfg.maxFileSize * 4 / 5) ++
        truncationMarker, true) ∧
    (generateExport demoFs demoSel demoCfg "T").1.metadata.truncatedFiles.count "src/a.ts" = 0 := by
  have hbig := (truncation_marker_and_count demoFs demoSel demoCfg "T" "big.ts"
    ⟨false, 25, some "0123456789012345678901234"⟩ "0123456789012345678901234"
    (by decide) (by decide) (by decide) rfl).1 (by decide)
  have hsmall := (truncation_marker_and_count demoFs demoSel demoCfg "T" "src/a.ts"
    ⟨false, 5, some "let x = 1"⟩ "let x = 1"
    (by decide) (by decide) (by decide) rfl).2 (by decide)
  exact ⟨hbig.1, hbig.2.1, hsmall.1⟩

/-- C6 (confirmed): when reading an eligible file fails, the run still
produces a complete document in which that file contributes, at its
position in the eligible order, exactly the inline error block, while the
reported file and size totals range only over the successfully processed
files, so the failed file contributes to neither. -/
theorem read_error_inline_block (fs : FileSystem) (sel : List String)
    (cfg : ExportConfiguration) (now : String) (p : String) (msg : String)
    (hp : p ∈ filterValidFiles fs sel)
    (herr : processFile fs cfg p = Except.error msg) :
    okFile fs cfg p = false ∧
    fragOf fs cfg p = formatError p msg cfg.format ∧
    (∃ l1 l2, filterValidFiles fs sel = l1 ++ p :: l2 ∧
      (generateExport fs sel cfg now).1.content =
        generateHeader cfg now ++ structPart fs cfg sel ++
        (catList (l1.map (fragOf fs cfg)) ++
          (formatError p msg cfg.format ++ catList (l2.map (fragOf fs cfg)))) ++
        generateFooter cfg (generateExport fs sel cfg now).1.metadata.totalFiles
          (generateExport fs sel cfg now).1.metadata.totalSize
          (generateExport fs sel cfg now).1.metadata.truncatedFiles) ∧
    (generateExport fs sel cfg now).1.metadata.totalFiles =
      ((filterValidFiles fs sel).filter (okFile fs cfg)).length ∧
    (generateExport fs sel cfg now).1.metadata.totalSize =
      (((filterValidFiles fs sel).filter (okFile fs cfg)).map (okSize fs cfg)).sum := by
  have hok : okFile fs cfg p = false := by simp [okFile, herr, Except.isOk, Except.toBool]
  have hfrag : fragOf fs cfg p = formatError p msg cfg.format := by simp [fragOf, herr]
  refine ⟨hok, hfrag, ?_, generateExport_totalFiles fs sel cfg now,
    generateExport_totalSize fs sel cfg now⟩
  rcases List.append_of_mem hp with ⟨l1, l2, hsplit⟩
  refine ⟨l1, l2, hsplit, ?_⟩
  have hcat : catList ((filterValidFiles fs sel).map (fragOf fs cfg)) =
      catList (l1.map (fragOf fs cfg)) ++
        (formatError p msg cfg.format ++ catList (l2.map (fragOf fs cfg))) := by
    rw [hsplit, List.map_append, List.map_cons, catList_append]
    simp only [catList, hfrag]
  rw [generateExport_content fs sel cfg now, hcat]

/-- C6 witness: the unreadable file of the demonstration run. -/
theorem read_error_inline_block_witness :
    okFile demoFs demoCfg "bad.ts" = false ∧
    fragOf demoFs demoCfg "bad.ts" = formatError "bad.ts" "Failed to read: bad.ts" Fmt.md ∧
    (generateExport demoFs demoSel demoCfg "T").1.metadata.totalFiles = 2 := by
  have h := read_error_inline_block demoFs demoSel demoCfg "T" "bad.ts"
    "Failed to read: bad.ts" (by decide) rfl
  refine ⟨h.1, ?_, ?_⟩
  · have h2 := h.2.1
    simpa using h2
  · rw [h.2.2.2.1]
    decide

/-- C10 (confirmed): the totalSize of the export metadata is the sum of
the full on disk stat sizes of the successfully processed files, the
contribution of a readable file being its stat size whether or not its
content was truncated for output, and the summary footer appended at the
end of the document reports exactly this totalSize; the reported total can
therefore exceed the number of content characters actually included. -/
theorem totalSize_counts_full_sizes (fs : FileSystem) (sel : List String)
    (cfg : ExportConfiguration) (now : String) :
    (generateExport fs sel cfg now).1.metadata.totalSize =
      (((filterValidFiles fs sel).filter (okFile fs cfg)).map (okSize fs cfg)).sum ∧
    (∀ (p : String) (e : FSEntry), fsLookup fs p = some e → okFile fs cfg p = true →
      okSize fs cfg p = e.size) ∧
    (∃ pre, (generateExport fs sel cfg now).1.content =
      pre ++ generateFooter cfg (generateExport fs sel cfg now).1.metadata.totalFiles
        (generateExport fs sel cfg now).1.metadata.totalSize
        (generateExport fs sel cfg now).1.metadata.truncatedFiles) := by
  refine ⟨generateExport_totalSize fs sel cfg now, ?_, ?_⟩
  · intro p e hl hok
    cases hpb : processedBody fs cfg p with
    | ok bt =>
      have hf := processFile_of_body fs cfg p e bt.1 bt.2 hl (by rw [hpb])
      simp [okSize, hf]
    | error m =>
      have hf : processFile fs cfg p = Except.error m := by
        unfold processFile getFileStats
        rw [hl, hpb]
      rw [okFile, hf] at hok
      simp [Except.isOk, Except.toBool] at hok
  · exact ⟨_, generateExport_content fs sel cfg now⟩

/-- C10 witness: the truncated 25 byte file contributes its full size, so
the demonstration run reports 30 bytes although the truncated body holds
only 8 content characters plus the marker. -/
theorem totalSize_counts_full_sizes_witness :
    (generateExport demoFs demoSel demoCfg "T").1.metadata.totalSize =
      (((filterValidFiles demoFs demoSel).filter (okFile demoFs demoCfg)).map
        (okSize demoFs demoCfg)).sum ∧
    okSize demoFs demoCfg "big.ts" = 25 := by
  refine ⟨(totalSize_counts_full_sizes demoFs demoSel demoCfg "T").1, ?_⟩
  have h := (totalSize_counts_full_sizes demoFs demoSel demoCfg "T").2.1 "big.ts"
    ⟨false, 25, some "0123456789012345678901234"⟩ (by decide) (by decide)
  rw [h]

theorem someSel_eq_not_noneSel : (cs : FForest) → someSel cs = !noneSel cs
  | FForest.nil => by simp [someSel, noneSel]
  | FForest.cons h t => by
    have ih := someSel_eq_not_noneSel t
    simp only [someSel, noneSel, ih]
    cases hs : h.data.selected <;> cases hi : h.data.indeterminate <;> simp

theorem forceN_data (b : Bool) (n : FNode) :
    (forceN b n).data = { n.data with selected := b, indeterminate := false } := by
  cases n with
  | mk d cs => rfl

theorem recompute_path_kind (d : NodeData) (cs : FForest) :
    (recompute d cs).path = d.path ∧ (recompute d cs).kind = d.kind := by
  unfold recompute
  split
  · exact ⟨rfl, rfl⟩
  · split
    · exact ⟨rfl, rfl⟩
    · split
      · exact ⟨rfl, rfl⟩
      · exact ⟨rfl, rfl⟩

theorem aggOk_recompute (d : NodeData) (cs : FForest) :
    aggOk (recompute d cs) cs = true := by
  unfold recompute aggOk
  by_cases hall : allSel cs = true
  · simp [hall]
  · have hall2 : allSel cs = false := by
      cases h : allSel cs
      · rfl
      · exact absurd h hall
    by_cases hnone : noneSel cs = true
    · have hsome : someSel cs = false := by
        rw [someSel_eq_not_noneSel, hnone]
        rfl
      simp [hall2, hnone, hsome]
    · have hnone2 : noneSel cs = false := by
        cases h : noneSel cs
        · rfl
        · exact absurd h hnone
      have hsome : someSel cs = true := by
        rw [someSel_eq_not_noneSel, hnone2]
        rfl
      simp [hall2, hnone2, hsome]

theorem allSel_forceF_true : (cs : FForest) → allSel (forceF true cs) = true
  | FForest.nil => rfl
  | FForest.cons h t => by
    have ih := allSel_forceF_true t
    simp [forceF, allSel, forceN_data, ih]

theorem noneSel_forceF_false : (cs : FForest) → noneSel (forceF false cs) = true
  | FForest.nil => rfl
  | FForest.cons h t => by
    have ih := noneSel_forceF_false t
    simp [forceF, noneSel, forceN_data, ih]

theorem allSel_forceF_false_cons (h : FNode) (t : FForest) :
    allSel (forceF false (FForest.cons h t)) = false := by
  simp [forceF, allSel, forceN_data]

theorem aggOk_after_force (b : Bool) (d : NodeData) (cs : FForest)
    (hne : cs ≠ FForest.nil) :
    aggOk { d with selected := b, indeterminate := false } (forceF b cs) = true := by
  cases b with
  | false =>
    cases cs with
    | nil => exact absurd rfl hne
    | cons h t =>
      have hnone := noneSel_forceF_false (FForest.cons h t)
      have hsome : someSel (forceF false (FForest.cons h t)) = false := by
        rw [someSel_eq_not_noneSel, hnone]
        rfl
      have hall := allSel_forceF_false_cons h t
      simp [aggOk, hall, hsome]
  | true =>
    have hall := allSel_forceF_true cs
    simp [aggOk, hall]

theorem nodeAgg_of_aggOk (d : NodeData) (cs : FForest) (h : aggOk d cs = true) :
    nodeAgg d cs = true := by
  unfold nodeAgg
  split
  · exact h
  · rfl

theorem nodeAgg_nil (d : NodeData) : nodeAgg d FForest.nil = true := by
  unfold nodeAgg
  split
  · rename_i h1 h2
    exact FForest.noConfusion h2
  · rfl

theorem nodeAgg_file (d : NodeData) (cs : FForest) (h : d.kind = NKind.file) :
    nodeAgg d cs = true := by
  unfold nodeAgg
  split
  · rename_i h1 h2
    rw [h] at h2
    exact NKind.noConfusion h2
  · rfl

theorem nodeAgg_dir_cons (d : NodeData) (h : d.kind = NKind.directory)
    (hd : FNode) (tl : FForest) :
    nodeAgg d (FForest.cons hd tl) = aggOk d (FForest.cons hd tl) := by
  simp [nodeAgg, h]

mutual

theorem invN_forceN (b : Bool) : (n : FNode) → invN n = true → invN (forceN b n) = true
  | FNode.mk d cs, h => by
    have hcs : invF cs = true := by
      have h2 := h
      simp only [invN, Bool.and_eq_true] at h2
      exact h2.2
    cases hk : d.kind with
    | directory =>
      have hforced : forceN b (FNode.mk d cs) =
          FNode.mk { d with selected := b, indeterminate := false } (forceF b cs) := by
        simp [forceN, hk]
      rw [hforced]
      simp only [invN, Bool.and_eq_true]
      refine ⟨?_, invF_forceF b cs hcs⟩
      cases hcs2 : cs with
      | nil => exact nodeAgg_nil _
      | cons hd tl =>
        apply nodeAgg_of_aggOk
        exact aggOk_after_force b d (FForest.cons hd tl) (by intro hx; cases hx)
    | file =>
      have hforced : forceN b (FNode.mk d cs) =
          FNode.mk { d with selected := b, indeterminate := false } cs := by
        simp [forceN, hk]
      rw [hforced]
      simp only [invN, Bool.and_eq_true]
      exact ⟨nodeAgg_file _ cs hk, hcs⟩

theorem invF_forceF (b : Bool) : (f : FForest) → invF f = true → invF (forceF b f) = true
  | FForest.nil, _ => rfl
  | FForest.cons hd tl, h => by
    have h2 := h
    simp only [invF, Bool.and_eq_true] at h2
    simp only [forceF, invF, Bool.and_eq_true]
    exact ⟨invN_forceN b hd h2.1, invF_forceF b tl h2.2⟩

end

mutual

theorem invN_togN (p : String) (b : Bool) : (n : FNode) → invN n = true →
    ∀ n2, togN p b n = some n2 → invN n2 = true
  | FNode.mk d cs, h => by
    intro n2 ht
    have hcs : invF cs = true := by
      have h2 := h
      simp only [invN, Bool.and_eq_true] at h2
      exact h2.2
    by_cases hp : d.path = p
    · simp only [togN, hp, if_pos] at ht
      have hn2 : forceN b (FNode.mk d cs) = n2 := by
        injection ht
      rw [← hn2]
      exact invN_forceN b (FNode.mk d cs) h
    · simp only [togN, hp, if_neg, if_false] at ht
      cases htog : togF p b cs with
      | none =>
        rw [htog] at ht
        exact Option.noConfusion ht
      | some cs2 =>
        rw [htog] at ht
        have hn2 : FNode.mk (recompute d cs2) cs2 = n2 := by
          injection ht
        rw [← hn2]
        simp only [invN, Bool.and_eq_true]
        exact ⟨nodeAgg_of_aggOk _ _ (aggOk_recompute d cs2),
          invF_togF p b cs hcs cs2 htog⟩

theorem invF_togF (p : String) (b : Bool) : (f : FForest) → invF f = true →
    ∀ f2, togF p b f = some f2 → invF f2 = true
  | FForest.nil, _ => by
    intro f2 ht
    exact Option.noConfusion ht
  | FForest.cons hd tl, h => by
    intro f2 ht
    have h2 : invN hd = true ∧ invF tl = true := by
      have h3 := h
      simp only [invF, Bool.and_eq_true] at h3
      exact h3
    cases htn : togN p b hd with
    | some hd2 =>
      simp only [togF, htn] at ht
      have hf2 : FForest.cons hd2 tl = f2 := by
        injection ht
      rw [← hf2]
      simp only [invF, Bool.and_eq_true]
      exact ⟨invN_togN p b hd h2.1 hd2 htn, h2.2⟩
    | none =>
      simp only [togF, htn] at ht
      cases htf : togF p b tl with
      | some tl2 =>
        rw [htf] at ht
        have hf2 : FForest.cons hd tl2 = f2 := by
          injection ht
        rw [← hf2]
        simp only [invF, Bool.and_eq_true]
        exact ⟨h2.1, invF_togF p b tl h2.2 tl2 htf⟩
      | none =>
        rw [htf] at ht
        exact Option.noConfusion ht

end

theorem invF_setSelected (f : FForest) (p : String) (b : Bool) (h : invF f = true) :
    invF (setSelected f p b) = true := by
  unfold setSelected
  cases ht : togF p b f with
  | none => simpa using h
  | some f2 => simpa using invF_togF p b f h f2 ht

theorem allClearN_flags (n : FNode) (h : allClearN n = true) :
    n.data.selected = false ∧ n.data.indeterminate = false := by
  cases n with
  | mk d cs =>
    simp only [allClearN, Bool.and_eq_true] at h
    exact ⟨by simpa using h.1.1, by simpa using h.1.2⟩

theorem allClear_noneSel : (cs : FForest) → allClearF cs = true → noneSel cs = true
  | FForest.nil, _ => rfl
  | FForest.cons hd tl, h => by
    simp only [allClearF, Bool.and_eq_true] at h
    have hf := allClearN_flags hd h.1
    have ih := allClear_noneSel tl h.2
    simp [noneSel, hf.1, hf.2, ih]

theorem allClear_allSel_cons (hd : FNode) (tl : FForest)
    (h : allClearF (FForest.cons hd tl) = true) :
    allSel (FForest.cons hd tl) = false := by
  simp only [allClearF, Bool.and_eq_true] at h
  have hf := allClearN_flags hd h.1
  simp [allSel, hf.1]

mutual

theorem invN_of_allClearN : (n : FNode) → allClearN n = true → invN n = true
  | FNode.mk d cs, h => by
    have h2 : ((!d.selected) = true ∧ (!d.indeterminate) = true) ∧ allClearF cs = true := by
      have h3 := h
      simp only [allClearN, Bool.and_eq_true] at h3
      exact h3
    have hsel : d.selected = false := by
      have h4 := h2.1.1
      simpa using h4
    have hind : d.indeterminate = false := by
      have h4 := h2.1.2
      simpa using h4
    simp only [invN, Bool.and_eq_true]
    refine ⟨?_, invF_of_allClearF cs h2.2⟩
    cases hcs : cs with
    | nil => exact nodeAgg_nil d
    | cons hd tl =>
      cases hk : d.kind with
      | file => exact nodeAgg_file d _ hk
      | directory =>
        rw [nodeAgg_dir_cons d hk hd tl]
        have hall : allSel (FForest.cons hd tl) = false :=
          allClear_allSel_cons hd tl (by rw [← hcs]; exact h2.2)
        have hnone : noneSel (FForest.cons hd tl) = true :=
          allClear_noneSel (FForest.cons hd tl) (by rw [← hcs]; exact h2.2)
        have hsome : someSel (FForest.cons hd tl) = false := by
          rw [someSel_eq_not_noneSel, hnone]
          rfl
        simp [aggOk, hall, hsome, hsel, hind]

theorem invF_of_allClearF : (f : FForest) → allClearF f = true → invF f = true
  | FForest.nil, _ => rfl
  | FForest.cons hd tl, h => by
    have h2 : allClearN hd = true ∧ allClearF tl = true := by
      have h3 := h
      simp only [allClearF, Bool.and_eq_true] at h3
      exact h3
    simp only [invF, Bool.and_eq_true]
    exact ⟨invN_of_allClearN hd h2.1, invF_of_allClearF tl h2.2⟩

end

/-- C2 (confirmed): starting from any tree in the state the tree builder
delivers it (every selected and indeterminate flag clear), after any
sequence of user selection toggles every directory with a nonempty loaded
children list satisfies the aggregate rule: selected exactly when all
loaded children are selected, indeterminate exactly when some loaded child
is selected or indeterminate but not all are selected, both flags clear
otherwise. -/
theorem invF_applyToggles (l : List (String × Bool)) :
    ∀ f : FForest, invF f = true → invF (applyToggles f l) = true := by
  induction l with
  | nil =>
    intro f h
    simpa [applyToggles] using h
  | cons t rest ih =>
    intro f h
    obtain ⟨p, b⟩ := t
    simp only [applyToggles]
    exact ih _ (invF_setSelected f p b h)

/-- C2 (confirmed): starting from any tree in the state the tree builder
delivers it (every selected and indeterminate flag clear), after any
sequence of user selection toggles every directory with a nonempty loaded
children list satisfies the aggregate rule: selected exactly when all
loaded children are selected, indeterminate exactly when some loaded child
is selected or indeterminate but not all are selected, both flags clear
otherwise. -/
theorem selection_invariant_after_toggles (f : FForest) (h : allClearF f = true) :
    ∀ toggles : List (String × Bool), invF (applyToggles f toggles) = true := by
  intro toggles
  exact invF_applyToggles toggles f (invF_of_allClearF f h)

/-- C2 witness: the invariant after a concrete toggle sequence on the
demonstration tree. -/
theorem selection_invariant_after_toggles_witness :
    allClearF demoForest = true ∧
    invF (applyToggles demoForest
      [("d/x.ts", true), (".", true), ("a.txt", false), ("d", false)]) = true :=
  ⟨by decide, selection_invariant_after_toggles demoForest (by decide)
    [("d/x.ts", true), (".", true), ("a.txt", false), ("d", false)]⟩
